import Mathlib

/-!
# Verification development for `eth_client.go`

A shallow embedding of the Ethereum client wrapper: the selector encoder
`PackMethodData`, the unit converter `BalanceToEther`, the session constructor
and the transaction pipeline (`CreateTx`, `SignTx`, `SendTx`, `GetTxReceipt`,
`InvokeContractWithoutArgs`).

Conventions.
* A Go `string` / `[]byte` is a list of bytes (`GoString`).
* A call either returns, ends the process through `log.Fatalf`, or panics
  (`Outcome`).
* Methods of `*EthClient` are state transformers on a `World` holding the
  session struct, the number of `TransactionByHash` lookups answered so far and
  the log of observable actions (ledger calls, sleeps, printed lines).
* go-ethereum and the remote node are collaborators: cryptographic primitives
  are fields of `Lib`, node answers are fields of `Ledger`.
-/

namespace Eth

/-! ## Bytes and strings -/

abbrev Byte := Fin 256

abbrev GoString := List Byte

/-- Lower-case digit table of `encoding/hex`: the bytes of `0123456789abcdef`. -/
def hextable : List Byte :=
  [48, 49, 50, 51, 52, 53, 54, 55, 56, 57, 97, 98, 99, 100, 101, 102]

/-- Two digits for one byte, as `hex.Encode` writes them:
`hextable[v>>4]`, `hextable[v&0x0f]`. -/
def hexEncodeByte (v : Byte) : GoString :=
  [hextable.getD (v.val >>> 4) 0, hextable.getD (v.val &&& 0x0f) 0]

/-- Go `hex.EncodeToString`. -/
def hexEncodeToString : List Byte → GoString
  | [] => []
  | v :: rest => hexEncodeByte v ++ hexEncodeToString rest

/-- Errors of `encoding/hex`. -/
inductive HexError where
  | errLength
  | invalidByte (b : Byte)
  deriving DecidableEq, Repr

/-- Digit value of a hex character (`reverseHexTable` of `encoding/hex`):
`none` stands for the table entry `0xff`. -/
def fromHexChar (c : Byte) : Option Nat :=
  if 48 ≤ c.val ∧ c.val ≤ 57 then some (c.val - 48)
  else if 97 ≤ c.val ∧ c.val ≤ 102 then some (c.val - 97 + 10)
  else if 65 ≤ c.val ∧ c.val ≤ 70 then some (c.val - 65 + 10)
  else none

/-- The byte `(a << 4) | b` of `hex.Decode`, in 8-bit arithmetic. -/
def packNibbles (a b : Nat) : Byte :=
  ⟨(((a <<< 4) % 256) ||| b) % 256, Nat.mod_lt _ (by decide)⟩

/-- Go `hex.DecodeString`: pairs of digits become bytes; a bad digit is
reported before an odd length. -/
def hexDecodeString : GoString → Except HexError (List Byte)
  | [] => .ok []
  | [p] =>
    match fromHexChar p with
    | none => .error (.invalidByte p)
    | some _ => .error .errLength
  | p :: q :: rest =>
    match fromHexChar p with
    | none => .error (.invalidByte p)
    | some a =>
      match fromHexChar q with
      | none => .error (.invalidByte q)
      | some b =>
        match hexDecodeString rest with
        | .error e => .error e
        | .ok bs => .ok (packNibbles a b :: bs)

/-- Go slice expression `s[lo:hi]` on a string; `none` is the run-time panic
for bounds out of range. -/
def goSlice (s : GoString) (lo hi : Nat) : Option GoString :=
  if lo ≤ hi ∧ hi ≤ s.length then some ((s.take hi).drop lo) else none

/-- Go `strings.Join`: empty for no elements, the element itself for one,
otherwise the first element followed by separator and element for each
further one. -/
def stringsJoin (elems : List GoString) (sep : GoString) : GoString :=
  match elems with
  | [] => []
  | first :: more => more.foldl (fun b s => b ++ sep ++ s) first

/-! ## go-ethereum data -/

/-- Type `common.Hash`: exactly 32 bytes. -/
abbrev Hash := { bs : List Byte // bs.length = 32 }

/-- Method `Hash.Hex`: the characters `0x` followed by the 64 hex digits. -/
def Hash.Hex (h : Hash) : GoString :=
  [48, 120] ++ hexEncodeToString h.val

/-- Type `common.Address`, kept as its bytes. -/
structure Address where
  bytes : List Byte
  deriving DecidableEq, Repr

/-- Type `ecdsa.PublicKey` (curve point). -/
structure PublicKey where
  x : Int
  y : Int
  deriving DecidableEq, Repr

/-- Type `ecdsa.PrivateKey`: the embedded public key and the scalar. -/
structure PrivateKey where
  PublicKey : PublicKey
  d : Int
  deriving DecidableEq, Repr

/-- Handle returned by `ethclient.Dial`. -/
structure Client where
  endpoint : GoString
  deriving DecidableEq, Repr

/-- Go `error` values coming from collaborators. -/
structure GoError where
  code : Nat
  deriving DecidableEq, Repr

/-- Fields of `types.LegacyTx`; `v`, `r`, `s` are zero until signed. -/
structure LegacyTx where
  Nonce : Nat
  GasPrice : Int
  Gas : Nat
  To : Option Address
  Value : Int
  Data : List Byte
  v : Int := 0
  r : Int := 0
  s : Int := 0
  deriving DecidableEq, Repr

/-- Inner payload of a `types.Transaction`. -/
inductive TxData where
  | legacy (tx : LegacyTx)
  | typed (txType : Nat) (payload : List Byte)
  deriving DecidableEq, Repr

/-- Type `types.Transaction`. -/
structure Transaction where
  inner : TxData
  deriving DecidableEq, Repr

/-- Go `types.NewTx` applied to a `LegacyTx`. -/
def NewTx (inner : LegacyTx) : Transaction := ⟨.legacy inner⟩

/-- Type `ethereum.CallMsg`, the fields the client fills. -/
structure CallMsg where
  From : Address
  To : Option Address
  Data : List Byte
  Value : Int
  deriving DecidableEq, Repr

/-- Type `types.Receipt`, the fields the client reads or that identify it. -/
structure Receipt where
  Status : Nat
  TxHash : Hash
  BlockNumber : Int
  deriving DecidableEq, Repr

/-- Type `types.Header`. -/
structure Header where
  Number : Int
  ParentHash : Hash
  deriving DecidableEq, Repr

/-- Type `types.Block`. -/
structure Block where
  header : Header
  transactions : List Transaction
  deriving DecidableEq, Repr

/-- Pure functions of go-ethereum used by the client. -/
structure Lib where
  /-- Function `crypto.Keccak256Hash`. -/
  Keccak256Hash : List Byte → Hash
  /-- Function `crypto.HexToECDSA`. -/
  HexToECDSA : GoString → Except GoError PrivateKey
  /-- Function `crypto.PubkeyToAddress`. -/
  PubkeyToAddress : PublicKey → Address
  /-- Method `Address.Hex`. -/
  AddressHex : Address → GoString
  /-- Function `common.HexToAddress`. -/
  HexToAddress : GoString → Address
  /-- Function `common.HexToHash`. -/
  HexToHash : GoString → Hash
  /-- Function `types.SignTx` with the signer `types.NewEIP155Signer chainId`. -/
  SignTx : Transaction → Int → PrivateKey → Except GoError Transaction
  /-- Method `Transaction.Hash`. -/
  TxHash : Transaction → Hash

/-! ## Outcomes -/

/-- Places where the client calls `log.Fatalf`, with the data of the message. -/
inductive Fatal where
  | parseMethodId (methodId : GoString) (err : HexError)
  | parseKey (privateKey : GoString) (err : GoError)
  | dial (endpoint : GoString) (err : GoError)
  | blockNumber (err : GoError)
  | blockByNumber (blockHeight : Nat) (err : GoError)
  | blockByHash (blockHash : GoString) (err : GoError)
  | headerByNumber (blockHeight : Nat) (err : GoError)
  | headerByHash (blockHash : GoString) (err : GoError)
  | nonce (address : Address) (err : GoError)
  | gasPrice (err : GoError)
  | estimateGas (err : GoError)
  | networkID (err : GoError)
  | balance (account : GoString) (err : GoError)
  | txByHash (txHash : GoString) (err : GoError)
  | txInBlock (blockHash : GoString) (err : GoError)
  | byteCode (contractAddr : GoString) (err : GoError)
  | pendingLookup (err : GoError)
  | receiptLookup (err : GoError)
  | signTx (err : GoError)
  | sendTx (err : GoError)
  deriving DecidableEq, Repr

/-- How a call ends: with a value, in `log.Fatalf`, or in a run-time panic. -/
inductive Outcome (α : Type) where
  | ret (a : α)
  | fatal (f : Fatal)
  | panic
  deriving DecidableEq, Repr

/-! ## Method selector encoder -/

/-- Source `PackMethodData` (eth_client.go 25-54). The loop collects the
declared types and the values; only the types are joined into the signature.
The signature `method(types)` is hashed, the hex digits 2..10 of the hash are
cut out and decoded back to bytes. -/
def PackMethodData (lib : Lib) (method : GoString) (args : List (GoString × GoString)) :
    Outcome (List Byte) :=
  let methodSigArgs : GoString :=
    if args.length ≠ 0 then
      let collected : List GoString × List GoString :=
        args.foldl (fun acc arg => (acc.1 ++ [arg.1], acc.2 ++ [arg.2])) ([], [])
      let argTypes := collected.1
      stringsJoin argTypes [44]
    else []
  let methodSig : List Byte := method ++ [40] ++ methodSigArgs ++ [41]
  match goSlice (lib.Keccak256Hash methodSig).Hex 2 10 with
  | none => .panic
  | some methodId =>
    match hexDecodeString methodId with
    | .error err => .fatal (.parseMethodId methodId err)
    | .ok data => .ret data

/-- Signature string as the specification words it:
`methodName(type1,type2,...)`, with empty parentheses for no arguments. -/
def canonicalSignature (method : GoString) (types : List GoString) : GoString :=
  method ++ [40] ++ List.intercalate [44] types ++ [41]

/-! ## Arbitrary-precision floats (`math/big`) -/

/-- Finite `big.Float`: mantissa precision in bits and exact value. Signed
zeros and infinities are not represented. -/
structure BigFloat where
  prec : Nat
  val : ℚ
  deriving DecidableEq

/-- Nearest integer to `m`, ties to the even neighbour. -/
def roundHalfEven (m : ℚ) : ℤ :=
  let f : ℤ := ⌊m⌋
  if m - f < 1 / 2 then f
  else if 1 / 2 < m - f then f + 1
  else if f % 2 = 0 then f
  else f + 1

/-- Rounding mode `ToNearestEven` of `big.Float` at `prec` mantissa bits: the
value is scaled so that its leading bit has weight `2^(prec-1)`, rounded to an
integer and scaled back. -/
def roundToPrec (prec : Nat) (q : ℚ) : ℚ :=
  if q = 0 then 0
  else
    let ulp : ℚ := (2 : ℚ) ^ (Int.log 2 |q| - ((prec : ℤ) - 1))
    (roundHalfEven (q / ulp) : ℚ) * ulp

/-- Conversion of a Go numeric constant to `float64` (53-bit mantissa; the
exponent range is not modelled). -/
def float64Const (q : ℚ) : ℚ := roundToPrec 53 q

/-- Go `big.NewFloat`: precision 53, the value of the `float64`. -/
def NewFloat (x : ℚ) : BigFloat := ⟨53, x⟩

/-- Method `Int.BitLen`: length of the absolute value in bits. -/
def BitLen (x : Int) : Nat := if x = 0 then 0 else Nat.log2 x.natAbs + 1

/-- Method `Float.SetInt` on a receiver `z`: a zero precision becomes
`max(x.BitLen(), 64)`, then the integer is rounded to the precision. -/
def BigFloat.SetInt (z : BigFloat) (x : Int) : BigFloat :=
  let prec := if z.prec = 0 then max (BitLen x) 64 else z.prec
  ⟨prec, roundToPrec prec x⟩

/-- Method `Float.Quo` on a receiver `z`: a zero precision becomes the larger
of the operand precisions, then the quotient is rounded to the precision. -/
def BigFloat.Quo (z x y : BigFloat) : BigFloat :=
  let prec := if z.prec = 0 then max x.prec y.prec else z.prec
  ⟨prec, roundToPrec prec (x.val / y.val)⟩

/-- Zero value produced by `new(big.Float)`. -/
def BigFloat.new : BigFloat := ⟨0, 0⟩

/-- Source `BalanceToEther` (eth_client.go 19-23). -/
def BalanceToEther (balance : Int) : BigFloat :=
  let balanceInEther := BigFloat.new.SetInt balance
  let etherValue := BigFloat.new.Quo balanceInEther (NewFloat (float64Const (10 ^ 18)))
  etherValue

/-! ## Sessions, the ledger and the world -/

/-- Source struct `EthClient`. -/
structure EthClient where
  PrivateKey : PrivateKey
  Address : Address
  Client : Client
  deriving DecidableEq, Repr

/-- Lines written to standard output. -/
inductive Line where
  | txPending
  | txDone
  | signedHash (txHash : GoString)
  | txFailed (txHash : GoString)
  | txSucceeded (txHash : GoString)
  deriving DecidableEq, Repr

/-- Observable actions of a run, in program order. -/
inductive Event where
  | blockNumber
  | blockByNumber (number : Int)
  | blockByHash (hash : Hash)
  | headerByNumber (number : Int)
  | headerByHash (hash : Hash)
  | pendingNonceAt (account : Address)
  | suggestGasPrice
  | estimateGas (msg : CallMsg)
  | networkID
  | balanceAt (account : Address)
  | transactionByHash (hash : Hash)
  | transactionInBlock (blockHash : Hash) (index : Nat)
  | codeAt (account : Address)
  | transactionReceipt (hash : Hash)
  | sendTransaction (tx : Transaction)
  | close
  | sleep (seconds : Nat)
  | print (line : Line)
  deriving DecidableEq, Repr

/-- Answers of the remote node. Every query answers as a function of its
request; `TransactionByHash` also sees how many lookups were answered before,
so that a transaction can stay pending for some checks and settle later. -/
structure Ledger where
  Dial : GoString → Except GoError Client
  BlockNumber : Except GoError Nat
  BlockByNumber : Int → Except GoError Block
  BlockByHash : Hash → Except GoError Block
  HeaderByNumber : Int → Except GoError Header
  HeaderByHash : Hash → Except GoError Header
  PendingNonceAt : Address → Except GoError Nat
  SuggestGasPrice : Except GoError Int
  EstimateGas : CallMsg → Except GoError Nat
  NetworkID : Except GoError Int
  BalanceAt : Address → Except GoError Int
  TransactionByHash : Nat → Hash → Except GoError (Transaction × Bool)
  TransactionInBlock : Hash → Nat → Except GoError Transaction
  CodeAt : Address → Except GoError (List Byte)
  TransactionReceipt : Hash → Except GoError Receipt
  SendTransaction : Transaction → Option GoError

/-- State threaded through the methods: the struct behind the receiver, the
number of `TransactionByHash` lookups answered so far, and the log. -/
structure World where
  ec : EthClient
  lookups : Nat
  trace : List Event
  deriving DecidableEq, Repr

/-- A method body: from the world before to the outcome and the world after. -/
def Op (α : Type) : Type := World → Outcome α × World

/-- Sequencing: the continuation runs only after a normal return. -/
def Op.bind {α β : Type} (m : Op α) (f : α → Op β) : Op β := fun w =>
  match m w with
  | (.ret a, w1) => f a w1
  | (.fatal e, w1) => (.fatal e, w1)
  | (.panic, w1) => (.panic, w1)

/-- Returning a value changes nothing. -/
def Op.pure {α : Type} (a : α) : Op α := fun w => (.ret a, w)

instance : Monad Op where
  pure := Op.pure
  bind := Op.bind

/-- The receiver `ec`. -/
def self : Op EthClient := fun w => (.ret w.ec, w)

/-- Append an action to the log. -/
def emit (e : Event) : Op Unit := fun w => (.ret (), { w with trace := w.trace ++ [e] })

/-- Call `log.Fatalf`: the process ends here. -/
def fatalf {α : Type} (f : Fatal) : Op α := fun w => (.fatal f, w)

/-- A ledger query: logged, then answered. -/
def call {α : Type} (e : Event) (answer : Except GoError α) : Op (Except GoError α) := fun w =>
  (.ret answer, { w with trace := w.trace ++ [e] })

/-- The query `Client.TransactionByHash`: logged, answered according to the
number of earlier lookups, and counted. -/
def lookupTx (L : Ledger) (hash : Hash) : Op (Except GoError (Transaction × Bool)) := fun w =>
  (.ret (L.TransactionByHash w.lookups hash),
    { w with lookups := w.lookups + 1, trace := w.trace ++ [.transactionByHash hash] })

/-- Lift a free function that may end the process. -/
def liftOutcome {α : Type} (o : Outcome α) : Op α := fun w => (o, w)

/-- Go conversion `int64(x)` of a `uint64`. -/
def toInt64 (x : Nat) : Int :=
  if x % 2 ^ 64 < 2 ^ 63 then (x % 2 ^ 64 : Nat) else ((x % 2 ^ 64 : Nat) : Int) - 2 ^ 64

/-! ## Free functions and the constructor -/

/-- Source `PrivateKeyToAccount` (eth_client.go 56-63). -/
def PrivateKeyToAccount (lib : Lib) (privateKey : GoString) : Outcome GoString :=
  match lib.HexToECDSA privateKey with
  | .error err => .fatal (.parseKey privateKey err)
  | .ok key =>
    let address := lib.PubkeyToAddress key.PublicKey
    .ret (lib.AddressHex address)

/-- Source `NewEthClient` (eth_client.go 71-87). -/
def NewEthClient (lib : Lib) (L : Ledger) (endpoint privateKey : GoString) : Outcome EthClient :=
  match L.Dial endpoint with
  | .error err => .fatal (.dial endpoint err)
  | .ok client =>
    match lib.HexToECDSA privateKey with
    | .error err => .fatal (.parseKey privateKey err)
    | .ok key =>
      let address := lib.PubkeyToAddress key.PublicKey
      .ret ⟨key, address, client⟩

/-- World of a session that has not acted yet. -/
def World.init (ec : EthClient) : World := ⟨ec, 0, []⟩

/-! ## Methods of the session -/

/-- Source `EthClient.Account` (eth_client.go 89-91). -/
def Account (lib : Lib) : Op GoString := do
  let ec ← self
  pure (lib.AddressHex ec.Address)

/-- Source `EthClient.GetCurrentBlockHeight` (eth_client.go 93-99). -/
def GetCurrentBlockHeight (L : Ledger) : Op Nat := do
  match ← call .blockNumber L.BlockNumber with
  | .error err => fatalf (.blockNumber err)
  | .ok height => pure height

/-- Source `EthClient.GetBlockByHeight` (eth_client.go 101-107). -/
def GetBlockByHeight (L : Ledger) (blockHeight : Nat) : Op Block := do
  let number := toInt64 blockHeight
  match ← call (.blockByNumber number) (L.BlockByNumber number) with
  | .error err => fatalf (.blockByNumber blockHeight err)
  | .ok block => pure block

/-- Source `EthClient.GetBlockByHash` (eth_client.go 109-115). -/
def GetBlockByHash (lib : Lib) (L : Ledger) (blockHash : GoString) : Op Block := do
  let hash := lib.HexToHash blockHash
  match ← call (.blockByHash hash) (L.BlockByHash hash) with
  | .error err => fatalf (.blockByHash blockHash err)
  | .ok block => pure block

/-- Source `EthClient.GetBlockHeaderByHeight` (eth_client.go 117-123). -/
def GetBlockHeaderByHeight (L : Ledger) (blockHeight : Nat) : Op Header := do
  let number := toInt64 blockHeight
  match ← call (.headerByNumber number) (L.HeaderByNumber number) with
  | .error err => fatalf (.headerByNumber blockHeight err)
  | .ok header => pure header

/-- Source `EthClient.GetBlockHeaderByHash` (eth_client.go 125-131). -/
def GetBlockHeaderByHash (lib : Lib) (L : Ledger) (blockHash : GoString) : Op Header := do
  let hash := lib.HexToHash blockHash
  match ← call (.headerByHash hash) (L.HeaderByHash hash) with
  | .error err => fatalf (.headerByHash blockHash err)
  | .ok header => pure header

/-- Source `EthClient.GetNonce` (eth_client.go 133-139). -/
def GetNonce (L : Ledger) : Op Nat := do
  let ec ← self
  match ← call (.pendingNonceAt ec.Address) (L.PendingNonceAt ec.Address) with
  | .error err => fatalf (.nonce ec.Address err)
  | .ok nonce => pure nonce

/-- Source `EthClient.GetGasPrice` (eth_client.go 141-147). -/
def GetGasPrice (L : Ledger) : Op Int := do
  match ← call .suggestGasPrice L.SuggestGasPrice with
  | .error err => fatalf (.gasPrice err)
  | .ok gasPrice => pure gasPrice

/-- Source `EthClient.EstimateGas` (eth_client.go 149-162). -/
def EstimateGas (lib : Lib) (L : Ledger) (toAccount : GoString) (data : List Byte)
    (value : Int) : Op Nat := do
  let ec ← self
  let toAddress := lib.HexToAddress toAccount
  let msg : CallMsg := { From := ec.Address, To := some toAddress, Data := data, Value := value }
  match ← call (.estimateGas msg) (L.EstimateGas msg) with
  | .error err => fatalf (.estimateGas err)
  | .ok gasLimit => pure gasLimit

/-- Source `EthClient.GetChainId` (eth_client.go 164-170). -/
def GetChainId (L : Ledger) : Op Int := do
  match ← call .networkID L.NetworkID with
  | .error err => fatalf (.networkID err)
  | .ok chainId => pure chainId

/-- Source `EthClient.GetBalance` (eth_client.go 172-179). -/
def GetBalance (lib : Lib) (L : Ledger) (account : GoString) : Op Int := do
  let address := lib.HexToAddress account
  match ← call (.balanceAt address) (L.BalanceAt address) with
  | .error err => fatalf (.balance account err)
  | .ok balance => pure balance

/-- Source `EthClient.GetMyBalance` (eth_client.go 181-183). -/
def GetMyBalance (lib : Lib) (L : Ledger) : Op Int := do
  let account ← Account lib
  GetBalance lib L account

/-- Source `EthClient.GetEthBalance` (eth_client.go 185-189). -/
def GetEthBalance (lib : Lib) (L : Ledger) (account : GoString) : Op BigFloat := do
  let balance ← GetBalance lib L account
  let etherValue := BalanceToEther balance
  pure etherValue

/-- Source `EthClient.GetTxByHash` (eth_client.go 191-202). -/
def GetTxByHash (lib : Lib) (L : Ledger) (txHash : GoString) : Op Transaction := do
  match ← lookupTx L (lib.HexToHash txHash) with
  | .error err => fatalf (.txByHash txHash err)
  | .ok (tx, isPending) =>
    if isPending == true then
      emit (.print .txPending)
    else
      emit (.print .txDone)
    pure tx

/-- Source `EthClient.GetTxInBlock` (eth_client.go 204-210). -/
def GetTxInBlock (lib : Lib) (L : Ledger) (blockHash : GoString) (index : Nat) :
    Op Transaction := do
  let hash := lib.HexToHash blockHash
  match ← call (.transactionInBlock hash index) (L.TransactionInBlock hash index) with
  | .error err => fatalf (.txInBlock blockHash err)
  | .ok tx => pure tx

/-- Source `EthClient.GetByteCode` (eth_client.go 212-218). -/
def GetByteCode (lib : Lib) (L : Ledger) (contractAddr : GoString) : Op GoString := do
  let address := lib.HexToAddress contractAddr
  match ← call (.codeAt address) (L.CodeAt address) with
  | .error err => fatalf (.byteCode contractAddr err)
  | .ok byteCode => pure (hexEncodeToString byteCode)

/-- Loop of `GetTxReceipt` (eth_client.go 223-233), over the values the
counter `i` takes: look the transaction up; a lookup error is fatal; a
transaction that is not pending ends the loop; otherwise sleep one second and
go on with the next value. -/
def pollPending (L : Ledger) (_txHash : Hash) : List Nat → Op Unit
  | [] => pure ()
  | _ :: rest => do
    match ← lookupTx L _txHash with
    | .error err => fatalf (.pendingLookup err)
    | .ok (_, isPending) =>
      if isPending == false then
        pure ()
      else do
        emit (.sleep 1)
        pollPending L _txHash rest

/-- Source `EthClient.GetTxReceipt` (eth_client.go 220-240): the loop runs for
`i = 0, 1, ..., 30`, then the receipt is fetched. -/
def GetTxReceipt (lib : Lib) (L : Ledger) (txHash : GoString) : Op Receipt := do
  let _txHash := lib.HexToHash txHash
  pollPending L _txHash (List.range' 0 31)
  match ← call (.transactionReceipt _txHash) (L.TransactionReceipt _txHash) with
  | .error err => fatalf (.receiptLookup err)
  | .ok receipt => pure receipt

/-- Source `EthClient.CreateTx` (eth_client.go 242-256). -/
def CreateTx (lib : Lib) (L : Ledger) (toAccount : GoString) (data : List Byte)
    (value : Int) : Op Transaction := do
  let nonce ← GetNonce L
  let gasPrice ← GetGasPrice L
  let gasLimit ← EstimateGas lib L toAccount data value
  let toAddress := lib.HexToAddress toAccount
  let tx := NewTx
    { Nonce := nonce, To := some toAddress, Value := value, Gas := gasLimit,
      GasPrice := gasPrice, Data := data }
  pure tx

/-- Source `EthClient.SignTx` (eth_client.go 258-265). -/
def SignTx (lib : Lib) (L : Ledger) (tx : Transaction) : Op Transaction := do
  let ec ← self
  let chainId ← GetChainId L
  match lib.SignTx tx chainId ec.PrivateKey with
  | .error err => fatalf (.signTx err)
  | .ok signedTx => pure signedTx

/-- Source `EthClient.SendTx` (eth_client.go 267-282). -/
def SendTx (lib : Lib) (L : Ledger) (tx : Transaction) : Op Receipt := do
  let signedTx ← SignTx lib L tx
  let txHash := (lib.TxHash signedTx).Hex
  emit (.print (.signedHash txHash))
  match ← call (.sendTransaction signedTx)
      (match L.SendTransaction signedTx with
        | some err => Except.error err
        | none => Except.ok ()) with
  | .error err => fatalf (.sendTx err)
  | .ok _ =>
    let receipt ← GetTxReceipt lib L txHash
    if receipt.Status == 0 then
      emit (.print (.txFailed txHash))
    else if receipt.Status == 1 then
      emit (.print (.txSucceeded txHash))
    pure receipt

/-- Source `EthClient.InvokeContractWithoutArgs` (eth_client.go 284-289). -/
def InvokeContractWithoutArgs (lib : Lib) (L : Ledger) (contractAddr method : GoString)
    (value : Int) : Op Receipt := do
  let data ← liftOutcome (PackMethodData lib method [])
  let tx ← CreateTx lib L contractAddr data value
  let receipt ← SendTx lib L tx
  pure receipt

/-- Source `EthClient.Stop` (eth_client.go 291-293). -/
def Stop : Op Unit :=
  emit .close

/-- A call of one method of the session, with its arguments. -/
inductive MethodCall where
  | Account
  | GetCurrentBlockHeight
  | GetBlockByHeight (blockHeight : Nat)
  | GetBlockByHash (blockHash : GoString)
  | GetBlockHeaderByHeight (blockHeight : Nat)
  | GetBlockHeaderByHash (blockHash : GoString)
  | GetNonce
  | GetGasPrice
  | EstimateGas (toAccount : GoString) (data : List Byte) (value : Int)
  | GetChainId
  | GetBalance (account : GoString)
  | GetMyBalance
  | GetEthBalance (account : GoString)
  | GetTxByHash (txHash : GoString)
  | GetTxInBlock (blockHash : GoString) (index : Nat)
  | GetByteCode (contractAddr : GoString)
  | GetTxReceipt (txHash : GoString)
  | CreateTx (toAccount : GoString) (data : List Byte) (value : Int)
  | SignTx (tx : Transaction)
  | SendTx (tx : Transaction)
  | InvokeContractWithoutArgs (contractAddr method : GoString) (value : Int)
  | Stop

/-- Forget the returned value of a method body. -/
def discard {α : Type} (m : Op α) : Op Unit := do
  let _ ← m
  pure ()

/-- Run a method call on the session. -/
def MethodCall.run (lib : Lib) (L : Ledger) : MethodCall → Op Unit
  | .Account => discard (Eth.Account lib)
  | .GetCurrentBlockHeight => discard (Eth.GetCurrentBlockHeight L)
  | .GetBlockByHeight h => discard (Eth.GetBlockByHeight L h)
  | .GetBlockByHash h => discard (Eth.GetBlockByHash lib L h)
  | .GetBlockHeaderByHeight h => discard (Eth.GetBlockHeaderByHeight L h)
  | .GetBlockHeaderByHash h => discard (Eth.GetBlockHeaderByHash lib L h)
  | .GetNonce => discard (Eth.GetNonce L)
  | .GetGasPrice => discard (Eth.GetGasPrice L)
  | .EstimateGas t d v => discard (Eth.EstimateGas lib L t d v)
  | .GetChainId => discard (Eth.GetChainId L)
  | .GetBalance a => discard (Eth.GetBalance lib L a)
  | .GetMyBalance => discard (Eth.GetMyBalance lib L)
  | .GetEthBalance a => discard (Eth.GetEthBalance lib L a)
  | .GetTxByHash h => discard (Eth.GetTxByHash lib L h)
  | .GetTxInBlock h i => discard (Eth.GetTxInBlock lib L h i)
  | .GetByteCode a => discard (Eth.GetByteCode lib L a)
  | .GetTxReceipt h => discard (Eth.GetTxReceipt lib L h)
  | .CreateTx t d v => discard (Eth.CreateTx lib L t d v)
  | .SignTx tx => discard (Eth.SignTx lib L tx)
  | .SendTx tx => discard (Eth.SendTx lib L tx)
  | .InvokeContractWithoutArgs c m v => discard (Eth.InvokeContractWithoutArgs lib L c m v)
  | .Stop => Eth.Stop

/-! ## Observations on runs -/

/-- Actions a run of `m` from `w` adds to the log. -/
def eventsOf {α : Type} (m : Op α) (w : World) : List Event :=
  (m w).2.trace.drop w.trace.length

/-- Pending flag of an answer to `TransactionByHash`. -/
def pendingFlag (answer : Except GoError (Transaction × Bool)) : Except GoError Bool :=
  match answer with
  | .error err => .error err
  | .ok (_, isPending) => .ok isPending

/-- Actions of the polling loop against a ledger that reports pending on
exactly the first `K` checks, over `n` values of the counter: `min K n` rounds
of check and sleep, then one more check when `K < n`. -/
def pollTrace (hash : Hash) (K n : Nat) : List Event :=
  (List.replicate (min K n) [Event.transactionByHash hash, Event.sleep 1]).flatten
    ++ (if K < n then [Event.transactionByHash hash] else [])

/-- The action is a submission of a signed transaction. -/
def isSend : Event → Bool
  | .sendTransaction _ => true
  | _ => false

/-- The action is a pending-check (`TransactionByHash`). -/
def isPendingCheck : Event → Bool
  | .transactionByHash _ => true
  | _ => false

/-- The action is a receipt fetch (`TransactionReceipt`). -/
def isReceiptFetch : Event → Bool
  | .transactionReceipt _ => true
  | _ => false

/-- The action is a sleep. -/
def isSleep : Event → Bool
  | .sleep _ => true
  | _ => false

/-- The first `n` rounds of a poll that keeps seeing a pending transaction:
check, sleep, check, sleep, ... -/
def pendingRounds (hash : Hash) (n : Nat) : List Event :=
  (List.replicate n [Event.transactionByHash hash, Event.sleep 1]).flatten

/-- Outcome of the receipt fetch that ends `GetTxReceipt`. -/
def receiptOutcome (answer : Except GoError Receipt) : Outcome Receipt :=
  match answer with
  | .error err => .fatal (.receiptLookup err)
  | .ok receipt => .ret receipt

/-- Outcome of the polling loop at the check that ends it: a lookup error is
fatal, any other answer leaves the loop normally. -/
def stopOutcome (last : Except GoError Bool) : Outcome Unit :=
  match last with
  | .error err => .fatal (.pendingLookup err)
  | .ok _ => .ret ()

/-- The method body `m` leaves the session struct as it is and only appends
actions satisfying `P` to the log. -/
def Emits {α : Type} (P : Event → Prop) (m : Op α) : Prop :=
  ∀ w, (m w).2.ec = w.ec ∧ ∃ evs, (m w).2.trace = w.trace ++ evs ∧ ∀ e ∈ evs, P e

/-- Lines `SendTx` prints for a receipt status: one for 0, one for 1, none
for any other value (eth_client.go 276-280). -/
def statusLines (txHash : GoString) (status : Nat) : List Event :=
  if status = 0 then [.print (.txFailed txHash)]
  else if status = 1 then [.print (.txSucceeded txHash)]
  else []

/-- What `SendTx` does with the result of `GetTxReceipt`: a receipt is
reported and returned, a failure is passed on. -/
def afterReceipt (txHash : GoString) : Outcome Receipt × World → Outcome Receipt × World
  | (.ret receipt, w) =>
    (.ret receipt, ⟨w.ec, w.lookups, w.trace ++ statusLines txHash receipt.Status⟩)
  | (.fatal f, w) => (.fatal f, w)
  | (.panic, w) => (.panic, w)

/-- World in which `SendTx` starts waiting for the receipt: the chain id was
queried, the hash printed and the signed transaction submitted. -/
def submitted (w : World) (signedTx : Transaction) (txHash : GoString) : World :=
  ⟨w.ec, w.lookups,
    w.trace ++ [.networkID, .print (.signedHash txHash), .sendTransaction signedTx]⟩

/-! ## A concrete library and ledger, for instantiating the results -/

namespace Demo

/-- A 32-byte digest of a byte string: its first 32 bytes, zero padded. -/
def digest (bs : List Byte) : Hash :=
  ⟨(bs ++ List.replicate 32 0).take 32, by simp⟩

/-- A stand-in for go-ethereum: keys are 64-character strings, addresses are
the first 20 bytes of the key material, signing always succeeds. -/
def lib : Lib where
  Keccak256Hash := digest
  HexToECDSA := fun k =>
    if k.length = 64 then .ok ⟨⟨k.length, (k.map Fin.val).sum⟩, (k.map Fin.val).sum⟩
    else .error ⟨1⟩
  PubkeyToAddress := fun pk => ⟨List.replicate 20 ⟨pk.y.natAbs % 256, Nat.mod_lt _ (by decide)⟩⟩
  AddressHex := fun a => [48, 120] ++ hexEncodeToString a.bytes
  HexToAddress := fun s => ⟨s.take 20⟩
  HexToHash := digest
  SignTx := fun tx chainId _ =>
    match tx.inner with
    | .legacy t => .ok ⟨.legacy { t with v := chainId * 2 + 35, r := 1, s := 1 }⟩
    | .typed _ _ => .error ⟨2⟩
  TxHash := fun tx =>
    match tx.inner with
    | .legacy t => digest t.Data
    | .typed _ p => digest p

/-- A ledger that answers every query, reports the transaction pending on the
first `K` lookups only, and returns a receipt of the given status. -/
def ledger (K status : Nat) : Ledger where
  Dial := fun endpoint => .ok ⟨endpoint⟩
  BlockNumber := .ok 7
  BlockByNumber := fun n => .ok ⟨⟨n, digest []⟩, []⟩
  BlockByHash := fun h => .ok ⟨⟨7, h⟩, []⟩
  HeaderByNumber := fun n => .ok ⟨n, digest []⟩
  HeaderByHash := fun h => .ok ⟨7, h⟩
  PendingNonceAt := fun _ => .ok 5
  SuggestGasPrice := .ok 1000000000
  EstimateGas := fun _ => .ok 21000
  NetworkID := .ok 1337
  BalanceAt := fun _ => .ok (10 ^ 18)
  TransactionByHash := fun n _ =>
    .ok (NewTx { Nonce := 5, GasPrice := 1, Gas := 21000, To := none, Value := 0, Data := [] },
      decide (n < K))
  TransactionInBlock := fun _ _ =>
    .ok (NewTx { Nonce := 5, GasPrice := 1, Gas := 21000, To := none, Value := 0, Data := [] })
  CodeAt := fun _ => .ok []
  TransactionReceipt := fun h => .ok ⟨status, h, 7⟩
  SendTransaction := fun _ => none

/-- A session. -/
def session : EthClient :=
  ⟨⟨⟨64, 9⟩, 9⟩, ⟨List.replicate 20 9⟩, ⟨[]⟩⟩

/-- The bytes of `deposit`. -/
def deposit : GoString := [100, 101, 112, 111, 115, 105, 116]

/-- The bytes of `isBatchFinalized`. -/
def isBatchFinalized : GoString :=
  [105, 115, 66, 97, 116, 99, 104, 70, 105, 110, 97, 108, 105, 122, 101, 100]

/-- The bytes of `uint256`. -/
def uint256 : GoString := [117, 105, 110, 116, 50, 53, 54]

/-- An unsigned transfer built by hand. -/
def tx : Transaction :=
  NewTx { Nonce := 5, GasPrice := 1000000000, Gas := 21000, To := some ⟨[]⟩, Value := 55555,
          Data := deposit }

/-- Result of signing `tx` for chain 1337 with the stand-in library. -/
def signedTx : Transaction :=
  ⟨.legacy { Nonce := 5, GasPrice := 1000000000, Gas := 21000, To := some ⟨[]⟩, Value := 55555,
             Data := deposit, v := 2709, r := 1, s := 1 }⟩

/-- A contract address string. -/
def contract : GoString := [48, 120, 98, 70, 53, 101]

/-- The signed call of `deposit()` on `contract` with value 55555, as the
stand-in library signs it for chain 1337. -/
def signedCall : Transaction :=
  ⟨.legacy { Nonce := 5, GasPrice := 1000000000, Gas := 21000,
             To := some ⟨[48, 120, 98, 70, 53, 101]⟩, Value := 55555,
             Data := [100, 101, 112, 111], v := 2709, r := 1, s := 1 }⟩

end Demo

/-! ## Theorems -/

/-! ### Hex digits and the selector -/

theorem fromHexChar_hextable (n : Nat) (hn : n < 16) :
    fromHexChar (hextable.getD n 0) = some n := by
  interval_cases n <;> decide

theorem packNibbles_split (v : Byte) : packNibbles (v.val >>> 4) (v.val &&& 0x0f) = v := by
  revert v
  set_option maxRecDepth 100000 in decide

theorem hexDecodeString_encode (bs : List Byte) :
    hexDecodeString (hexEncodeToString bs) = .ok bs := by
  induction bs with
  | nil => rfl
  | cons v rest ih =>
    have h1 : v.val >>> 4 < 16 := by
      have := v.isLt
      rw [Nat.shiftRight_eq_div_pow]; omega
    have h2 : v.val &&& 0x0f < 16 := Nat.lt_of_le_of_lt Nat.and_le_right (by decide)
    show hexDecodeString (hextable.getD (v.val >>> 4) 0 :: hextable.getD (v.val &&& 0x0f) 0
      :: hexEncodeToString rest) = .ok (v :: rest)
    simp only [hexDecodeString, fromHexChar_hextable _ h1, fromHexChar_hextable _ h2, ih,
      packNibbles_split]

theorem hexEncodeToString_length (bs : List Byte) :
    (hexEncodeToString bs).length = 2 * bs.length := by
  induction bs with
  | nil => rfl
  | cons v rest ih => simp [hexEncodeToString, hexEncodeByte, ih]; omega

theorem hexEncodeToString_append (xs ys : List Byte) :
    hexEncodeToString (xs ++ ys) = hexEncodeToString xs ++ hexEncodeToString ys := by
  induction xs with
  | nil => rfl
  | cons v rest ih => simp [hexEncodeToString, ih]

theorem goSlice_Hex (h : Hash) :
    goSlice h.Hex 2 10 = some (hexEncodeToString (h.val.take 4)) := by
  have hl := h.property
  have hsplit : h.val = h.val.take 4 ++ h.val.drop 4 := (List.take_append_drop 4 h.val).symm
  have hlen : (hexEncodeToString (h.val.take 4)).length = 8 := by
    rw [hexEncodeToString_length]; simp [hl]
  unfold goSlice Hash.Hex
  rw [if_pos]
  · congr 1
    conv_lhs => rw [hsplit, hexEncodeToString_append]
    have : List.take 10 ([48, 120] ++ (hexEncodeToString (h.val.take 4) ++ hexEncodeToString (h.val.drop 4)))
        = [48, 120] ++ hexEncodeToString (h.val.take 4) := by
      rw [← List.append_assoc]
      apply List.take_left'
      simp [hlen]
    rw [this]
    simp
  · simp [hexEncodeToString_length, hl]

theorem collect_types (args : List (GoString × GoString)) (a b : List GoString) :
    args.foldl (fun acc arg => (acc.1 ++ [arg.1], acc.2 ++ [arg.2])) (a, b)
      = (a ++ args.map Prod.fst, b ++ args.map Prod.snd) := by
  induction args generalizing a b with
  | nil => simp
  | cons x rest ih => simp [ih]

theorem stringsJoin_eq_intercalate (elems : List GoString) (sep : GoString) :
    stringsJoin elems sep = List.intercalate sep elems := by
  cases elems with
  | nil => rfl
  | cons first more =>
    simp only [stringsJoin]
    induction more generalizing first with
    | nil => simp [List.intercalate]
    | cons s rest ih =>
      simp only [List.foldl_cons]
      rw [ih]
      cases rest <;> simp [List.intercalate, List.intersperse]

theorem methodSig_eq (method : GoString) (args : List (GoString × GoString)) :
    (method ++ [40] ++
      (if args.length ≠ 0 then
        stringsJoin (args.foldl (fun acc arg => (acc.1 ++ [arg.1], acc.2 ++ [arg.2])) ([], [])).1 [44]
      else []) ++ [41] : List Byte)
    = canonicalSignature method (args.map Prod.fst) := by
  unfold canonicalSignature
  cases args with
  | nil => simp [List.intercalate]
  | cons x rest =>
    rw [if_pos (by simp), collect_types, stringsJoin_eq_intercalate]
    simp

theorem PackMethodData_eq (lib : Lib) (method : GoString) (args : List (GoString × GoString)) :
    PackMethodData lib method args
      = .ret ((lib.Keccak256Hash (canonicalSignature method (args.map Prod.fst))).val.take 4) := by
  unfold PackMethodData
  simp only
  rw [methodSig_eq, goSlice_Hex]
  simp only [hexDecodeString_encode]

/-! ### The polling loop -/

theorem bind_apply {α β : Type} (m : Op α) (f : α → Op β) (w : World) :
    (m >>= f) w = Op.bind m f w := rfl

theorem pure_apply {α : Type} (a : α) (w : World) :
    (pure a : Op α) w = (.ret a, w) := rfl

theorem pendingFlag_ok {x : Except GoError (Transaction × Bool)} {b : Bool}
    (h : pendingFlag x = .ok b) : ∃ tx, x = .ok (tx, b) := by
  cases x with
  | error e => simp [pendingFlag] at h
  | ok p =>
    obtain ⟨tx, b'⟩ := p
    simp [pendingFlag] at h
    exact ⟨tx, by rw [h]⟩

theorem pendingFlag_error {x : Except GoError (Transaction × Bool)} {e : GoError}
    (h : pendingFlag x = .error e) : x = .error e := by
  cases x with
  | error e' => simp [pendingFlag] at h; rw [h]
  | ok p => obtain ⟨tx, b'⟩ := p; simp [pendingFlag] at h

theorem pollTrace_zero_right (hash : Hash) (K : Nat) : pollTrace hash K 0 = [] := by
  simp [pollTrace]

theorem pollTrace_zero_left (hash : Hash) (n : Nat) :
    pollTrace hash 0 (n + 1) = [Event.transactionByHash hash] := by
  simp [pollTrace]

theorem pollTrace_succ (hash : Hash) (K n : Nat) :
    pollTrace hash (K + 1) (n + 1)
      = Event.transactionByHash hash :: Event.sleep 1 :: pollTrace hash K n := by
  simp [pollTrace, Nat.succ_min_succ, List.replicate_succ]

theorem pollPending_run (L : Ledger) (hash : Hash) :
    ∀ (is : List Nat) (K : Nat) (w : World),
      (∀ j, pendingFlag (L.TransactionByHash (w.lookups + j) hash) = .ok (decide (j < K))) →
      pollPending L hash is w
        = (.ret (), { w with lookups := w.lookups + min (K + 1) is.length,
                             trace := w.trace ++ pollTrace hash K is.length }) := by
  intro is
  induction is with
  | nil =>
    intro K w _
    simp [pollPending, pure_apply, pollTrace_zero_right]
  | cons i rest ih =>
    intro K w hK
    obtain ⟨tx, htx⟩ := pendingFlag_ok (hK 0)
    rw [Nat.add_zero] at htx
    cases K with
    | zero =>
      simp [pollPending, bind_apply, Op.bind, lookupTx, htx, pure_apply, pollTrace_zero_left]
    | succ K =>
      have hrest : ∀ j, pendingFlag (L.TransactionByHash (w.lookups + 1 + j) hash)
          = .ok (decide (j < K)) := by
        intro j
        have := hK (j + 1)
        simpa [Nat.add_assoc, Nat.add_comm 1 j] using this
      have := ih K ⟨w.ec, w.lookups + 1,
          w.trace ++ [Event.transactionByHash hash, Event.sleep 1]⟩ hrest
      simp only [] at this
      simp [pollPending, bind_apply, Op.bind, lookupTx, htx, emit, this, pollTrace_succ,
        Nat.succ_min_succ]
      omega

theorem pendingRounds_succ (hash : Hash) (n : Nat) :
    pendingRounds hash (n + 1)
      = Event.transactionByHash hash :: Event.sleep 1 :: pendingRounds hash n := by
  simp [pendingRounds, List.replicate_succ]

theorem pollPending_rounds (L : Ledger) (hash : Hash) :
    ∀ (K : Nat) (is : List Nat) (w : World), K ≤ is.length →
      (∀ j, j < K → pendingFlag (L.TransactionByHash (w.lookups + j) hash) = .ok true) →
      pollPending L hash is w
        = pollPending L hash (is.drop K) ⟨w.ec, w.lookups + K, w.trace ++ pendingRounds hash K⟩ := by
  intro K
  induction K with
  | zero =>
    intro is w _ _
    simp [pendingRounds]
  | succ K ih =>
    intro is w hlen hK
    cases is with
    | nil => simp at hlen
    | cons i rest =>
      obtain ⟨tx, htx⟩ := pendingFlag_ok (hK 0 (Nat.succ_pos K))
      rw [Nat.add_zero] at htx
      have hrest : ∀ j, j < K → pendingFlag (L.TransactionByHash (w.lookups + 1 + j) hash)
          = .ok true := by
        intro j hj
        have := hK (j + 1) (Nat.succ_lt_succ hj)
        simpa [Nat.add_assoc, Nat.add_comm 1 j] using this
      have := ih rest ⟨w.ec, w.lookups + 1,
          w.trace ++ [Event.transactionByHash hash, Event.sleep 1]⟩
          (Nat.le_of_succ_le_succ hlen) hrest
      simp only [] at this
      simp [pollPending, bind_apply, Op.bind, lookupTx, htx, emit, this, pendingRounds_succ,
        Nat.add_assoc, Nat.add_comm 1 K]

theorem pollPending_step (L : Ledger) (hash : Hash) (i : Nat) (rest : List Nat) (w : World)
    (last : Except GoError Bool) (hlast : pendingFlag (L.TransactionByHash w.lookups hash) = last)
    (hnp : last ≠ .ok true) :
    pollPending L hash (i :: rest) w
      = (stopOutcome last,
         ⟨w.ec, w.lookups + 1, w.trace ++ [Event.transactionByHash hash]⟩) := by
  cases last with
  | error err =>
    have := pendingFlag_error hlast
    simp [pollPending, bind_apply, Op.bind, lookupTx, this, fatalf, stopOutcome]
  | ok b =>
    cases b with
    | true => exact absurd rfl hnp
    | false =>
      obtain ⟨tx, htx⟩ := pendingFlag_ok hlast
      simp [pollPending, bind_apply, Op.bind, lookupTx, htx, pure_apply, stopOutcome]

theorem GetTxReceipt_of_pattern (lib : Lib) (L : Ledger) (txHash : GoString) (K : Nat) (w : World)
    (hK : ∀ j, pendingFlag (L.TransactionByHash (w.lookups + j) (lib.HexToHash txHash))
      = .ok (decide (j < K))) :
    GetTxReceipt lib L txHash w
      = (receiptOutcome (L.TransactionReceipt (lib.HexToHash txHash)),
          ⟨w.ec, w.lookups + min (K + 1) 31,
            w.trace ++ pollTrace (lib.HexToHash txHash) K 31
              ++ [Event.transactionReceipt (lib.HexToHash txHash)]⟩) := by
  have h := pollPending_run L (lib.HexToHash txHash) (List.range' 0 31) K w hK
  cases hr : L.TransactionReceipt (lib.HexToHash txHash) <;>
    simp [GetTxReceipt, bind_apply, Op.bind, h, call, hr, fatalf, pure_apply, receiptOutcome]

theorem eventsOf_eq {α : Type} (m : Op α) (w : World) (o : Outcome α) (w1 : World)
    (evs : List Event) (h : m w = (o, w1)) (ht : w1.trace = w.trace ++ evs) :
    eventsOf m w = evs := by
  simp [eventsOf, h, ht]

theorem filter_pollTrace (hash : Hash) (K n : Nat) :
    (pollTrace hash K n).filter (fun e => !isSleep e)
      = List.replicate (min (K + 1) n) (Event.transactionByHash hash) := by
  induction n generalizing K with
  | zero => simp [pollTrace_zero_right]
  | succ n ih =>
    cases K with
    | zero => simp [pollTrace_zero_left, isSleep, List.replicate_succ]
    | succ K =>
      have h1 : isSleep (Event.transactionByHash hash) = false := rfl
      have h2 : isSleep (Event.sleep 1) = true := rfl
      simp [pollTrace_succ, h1, h2, ih, Nat.succ_min_succ, List.replicate_succ]

/-- C1: for every method name and every list of (type, value) arguments,
`PackMethodData` returns (it neither reaches its fatal hex-decoding branch nor
panics) exactly the first four bytes of the Keccak-256 hash of
`method(type1,...,typeN)`; the result has length 4; and with no arguments the
hashed string is the method name followed by `()`. -/
theorem PackMethodData_selector (lib : Lib) (method : GoString)
    (args : List (GoString × GoString)) :
    PackMethodData lib method args
        = .ret ((lib.Keccak256Hash (canonicalSignature method (args.map Prod.fst))).val.take 4)
      ∧ ((lib.Keccak256Hash (canonicalSignature method (args.map Prod.fst))).val.take 4).length = 4
      ∧ PackMethodData lib method []
        = .ret ((lib.Keccak256Hash (method ++ [40, 41])).val.take 4) := by
  refine ⟨PackMethodData_eq lib method args, ?_, ?_⟩
  · simp [(lib.Keccak256Hash _).property]
  · rw [PackMethodData_eq]
    simp [canonicalSignature, List.intercalate]

/-- C2: the selector depends only on the method name and the declared types:
two argument lists of the same length whose types agree position by position
give the same result, whatever the values are. -/
theorem PackMethodData_types_only (lib : Lib) (method : GoString)
    (args args' : List (GoString × GoString))
    (hlen : args.length = args'.length)
    (htypes : ∀ (i : Nat) (h : i < args.length) (h' : i < args'.length),
      (args.get ⟨i, h⟩).1 = (args'.get ⟨i, h'⟩).1) :
    PackMethodData lib method args = PackMethodData lib method args' := by
  have hmap : args.map Prod.fst = args'.map Prod.fst := by
    apply List.ext_get
    · simp [hlen]
    · intro i h1 h2
      simp only [List.length_map] at h1 h2
      simpa using htypes i h1 h2
  rw [PackMethodData_eq, PackMethodData_eq, hmap]

/-- Instance of C2: `isBatchFinalized(uint256)` with value `1` and with value `2`. -/
theorem PackMethodData_types_only_witness :
    ([(Demo.uint256, [49])] : List (GoString × GoString)).length
        = ([(Demo.uint256, [50])] : List (GoString × GoString)).length
      ∧ PackMethodData Demo.lib Demo.isBatchFinalized [(Demo.uint256, [49])]
        = PackMethodData Demo.lib Demo.isBatchFinalized [(Demo.uint256, [50])] :=
  ⟨rfl, PackMethodData_types_only Demo.lib Demo.isBatchFinalized
    [(Demo.uint256, [49])] [(Demo.uint256, [50])] rfl
    (fun i h h' => by
      have hi : i = 0 := by simpa using h
      subst hi
      rfl)⟩

/-- C3: against a ledger whose lookup never errors and reports pending on
exactly the first `K` checks, `GetTxReceipt` issues exactly `min (K+1) 31`
pending-checks and then exactly one receipt fetch (apart from sleeps, nothing
else happens and no fetch comes before the last check); it does not fail on
exhaustion: its outcome is that of the receipt fetch, so when the ledger
returns a receipt this receipt is returned, also for `K ≥ 31`. -/
theorem GetTxReceipt_checks_then_fetch (lib : Lib) (L : Ledger) (txHash : GoString)
    (K : Nat) (w : World)
    (hK : ∀ j, pendingFlag (L.TransactionByHash (w.lookups + j) (lib.HexToHash txHash))
      = .ok (decide (j < K))) :
    (eventsOf (GetTxReceipt lib L txHash) w).filter (fun e => !isSleep e)
        = List.replicate (min (K + 1) 31) (Event.transactionByHash (lib.HexToHash txHash))
          ++ [Event.transactionReceipt (lib.HexToHash txHash)]
      ∧ (GetTxReceipt lib L txHash w).1
        = receiptOutcome (L.TransactionReceipt (lib.HexToHash txHash))
      ∧ (∀ receipt, L.TransactionReceipt (lib.HexToHash txHash) = .ok receipt →
          (GetTxReceipt lib L txHash w).1 = .ret receipt) := by
  have h := GetTxReceipt_of_pattern lib L txHash K w hK
  have hev := eventsOf_eq _ w _ _
    (pollTrace (lib.HexToHash txHash) K 31 ++ [Event.transactionReceipt (lib.HexToHash txHash)])
    h (by simp)
  refine ⟨?_, by rw [h], ?_⟩
  · rw [hev, List.filter_append, filter_pollTrace]
    simp [isSleep]
  · intro receipt hr
    rw [h, hr]
    rfl

/-- Instance of C3: a transaction that is pending for two checks. -/
theorem GetTxReceipt_checks_then_fetch_witness :
    (∀ j, pendingFlag ((Demo.ledger 2 1).TransactionByHash
        ((World.init Demo.session).lookups + j) (Demo.lib.HexToHash Demo.deposit))
        = .ok (decide (j < 2)))
      ∧ (eventsOf (GetTxReceipt Demo.lib (Demo.ledger 2 1) Demo.deposit)
          (World.init Demo.session)).filter (fun e => !isSleep e)
        = List.replicate (min (2 + 1) 31)
            (Event.transactionByHash (Demo.lib.HexToHash Demo.deposit))
          ++ [Event.transactionReceipt (Demo.lib.HexToHash Demo.deposit)] :=
  ⟨fun j => by simp [Demo.ledger, pendingFlag, World.init],
   (GetTxReceipt_checks_then_fetch Demo.lib (Demo.ledger 2 1) Demo.deposit 2
      (World.init Demo.session)
      (fun j => by simp [Demo.ledger, pendingFlag, World.init])).1⟩

theorem pollPending_nil (L : Ledger) (hash : Hash) (w : World) :
    pollPending L hash [] w = (.ret (), w) := rfl

theorem GetTxReceipt_exhausted (lib : Lib) (L : Ledger) (txHash : GoString) (w : World)
    (hpend : ∀ j, j < 31 →
      pendingFlag (L.TransactionByHash (w.lookups + j) (lib.HexToHash txHash)) = .ok true) :
    GetTxReceipt lib L txHash w
      = (receiptOutcome (L.TransactionReceipt (lib.HexToHash txHash)),
          ⟨w.ec, w.lookups + 31,
            w.trace ++ (pendingRounds (lib.HexToHash txHash) 31
              ++ [Event.transactionReceipt (lib.HexToHash txHash)])⟩) := by
  have h := pollPending_rounds L (lib.HexToHash txHash) 31 (List.range' 0 31) w (by simp) hpend
  have hd : List.drop 31 (List.range' 0 31) = [] := by decide
  rw [hd, pollPending_nil] at h
  cases hr : L.TransactionReceipt (lib.HexToHash txHash) <;>
    simp [GetTxReceipt, bind_apply, Op.bind, h, call, hr, fatalf, pure_apply, receiptOutcome]

theorem pollPending_stops (L : Ledger) (hash : Hash) (K : Nat) (w : World)
    (last : Except GoError Bool) (hK : K < 31)
    (hpend : ∀ j, j < K → pendingFlag (L.TransactionByHash (w.lookups + j) hash) = .ok true)
    (hlast : pendingFlag (L.TransactionByHash (w.lookups + K) hash) = last)
    (hnp : last ≠ .ok true) :
    pollPending L hash (List.range' 0 31) w
      = (stopOutcome last,
         ⟨w.ec, w.lookups + K + 1,
           w.trace ++ (pendingRounds hash K ++ [Event.transactionByHash hash])⟩) := by
  have h := pollPending_rounds L hash K (List.range' 0 31) w (by simp; omega) hpend
  cases hd : List.drop K (List.range' 0 31) with
  | nil =>
    have := congrArg List.length hd
    simp at this
    omega
  | cons i rest =>
    rw [hd] at h
    rw [h, pollPending_step L hash i rest _ last hlast hnp]
    simp

theorem GetTxReceipt_settled (lib : Lib) (L : Ledger) (txHash : GoString) (K : Nat) (w : World)
    (hK : K < 31)
    (hpend : ∀ j, j < K →
      pendingFlag (L.TransactionByHash (w.lookups + j) (lib.HexToHash txHash)) = .ok true)
    (hlast : pendingFlag (L.TransactionByHash (w.lookups + K) (lib.HexToHash txHash))
      = .ok false) :
    GetTxReceipt lib L txHash w
      = (receiptOutcome (L.TransactionReceipt (lib.HexToHash txHash)),
          ⟨w.ec, w.lookups + K + 1,
            w.trace ++ (pendingRounds (lib.HexToHash txHash) K
              ++ [Event.transactionByHash (lib.HexToHash txHash),
                  Event.transactionReceipt (lib.HexToHash txHash)])⟩) := by
  have h := pollPending_stops L (lib.HexToHash txHash) K w (.ok false) hK hpend hlast
    (by simp)
  cases hr : L.TransactionReceipt (lib.HexToHash txHash) <;>
    simp [GetTxReceipt, bind_apply, Op.bind, h, call, hr, fatalf, pure_apply, receiptOutcome,
      stopOutcome]

theorem GetTxReceipt_lookup_error (lib : Lib) (L : Ledger) (txHash : GoString) (K : Nat)
    (w : World) (err : GoError) (hK : K < 31)
    (hpend : ∀ j, j < K →
      pendingFlag (L.TransactionByHash (w.lookups + j) (lib.HexToHash txHash)) = .ok true)
    (hlast : pendingFlag (L.TransactionByHash (w.lookups + K) (lib.HexToHash txHash))
      = .error err) :
    GetTxReceipt lib L txHash w
      = (.fatal (.pendingLookup err),
          ⟨w.ec, w.lookups + K + 1,
            w.trace ++ (pendingRounds (lib.HexToHash txHash) K
              ++ [Event.transactionByHash (lib.HexToHash txHash)])⟩) := by
  have h := pollPending_stops L (lib.HexToHash txHash) K w (.error err) hK hpend hlast
    (by simp)
  simp [GetTxReceipt, bind_apply, Op.bind, h, stopOutcome]

theorem filter_isSleep_pendingRounds (hash : Hash) (n : Nat) :
    ((pendingRounds hash n).filter isSleep).length = n := by
  induction n with
  | zero => simp [pendingRounds]
  | succ n ih =>
    have h1 : isSleep (Event.transactionByHash hash) = false := rfl
    have h2 : isSleep (Event.sleep 1) = true := rfl
    simp [pendingRounds_succ, h1, h2, ih]

/-- C10: the sleeps of `GetTxReceipt` are exactly the pending answers. With
the first `K` lookups answered pending and lookup `K` (when the loop reaches
it) answered `last`, which is not-pending or an error, the run sleeps
`min K 31` times; if all 31 checks are pending the log is 31 rounds of check
and sleep followed directly by the receipt fetch; if check `K` is not pending
the log is `K` rounds, that check and the fetch; if check `K` errors the run
ends fatally right after that check, with no sleep and no fetch. -/
theorem GetTxReceipt_sleeps (lib : Lib) (L : Ledger) (txHash : GoString) (K : Nat) (w : World)
    (last : Except GoError Bool)
    (hpend : ∀ j, j < K → j < 31 →
      pendingFlag (L.TransactionByHash (w.lookups + j) (lib.HexToHash txHash)) = .ok true)
    (hlast : K < 31 →
      pendingFlag (L.TransactionByHash (w.lookups + K) (lib.HexToHash txHash)) = last)
    (hnp : last ≠ .ok true) :
    ((eventsOf (GetTxReceipt lib L txHash) w).filter isSleep).length = min K 31
      ∧ (31 ≤ K → eventsOf (GetTxReceipt lib L txHash) w
          = pendingRounds (lib.HexToHash txHash) 31
            ++ [Event.transactionReceipt (lib.HexToHash txHash)])
      ∧ (K < 31 → last = .ok false → eventsOf (GetTxReceipt lib L txHash) w
          = pendingRounds (lib.HexToHash txHash) K
            ++ [Event.transactionByHash (lib.HexToHash txHash),
                Event.transactionReceipt (lib.HexToHash txHash)])
      ∧ (K < 31 → ∀ err, last = .error err →
          eventsOf (GetTxReceipt lib L txHash) w
            = pendingRounds (lib.HexToHash txHash) K
              ++ [Event.transactionByHash (lib.HexToHash txHash)]
          ∧ (GetTxReceipt lib L txHash w).1 = .fatal (.pendingLookup err)) := by
  have hS1 : isSleep (Event.transactionByHash (lib.HexToHash txHash)) = false := rfl
  have hS2 : isSleep (Event.transactionReceipt (lib.HexToHash txHash)) = false := rfl
  by_cases hK : K < 31
  · have hp : ∀ j, j < K → pendingFlag
        (L.TransactionByHash (w.lookups + j) (lib.HexToHash txHash)) = .ok true :=
      fun j hj => hpend j hj (Nat.lt_trans hj hK)
    have hl := hlast hK
    have hcases : (last = .ok false) ∨ (∃ err, last = .error err) := by
      cases last with
      | error e => exact Or.inr ⟨e, rfl⟩
      | ok b =>
        cases b with
        | true => exact absurd rfl hnp
        | false => exact Or.inl rfl
    rcases hcases with hf | ⟨e, he⟩
    · subst hf
      have h := GetTxReceipt_settled lib L txHash K w hK hp hl
      have hev := eventsOf_eq _ w _ _ _ h rfl
      refine ⟨?_, fun h31 => absurd hK (Nat.not_lt.mpr h31), fun _ _ => hev, ?_⟩
      · rw [hev, List.filter_append, List.length_append, filter_isSleep_pendingRounds]
        simp [hS1, hS2]
        omega
      · intro _ err herr
        cases herr
    · subst he
      have h := GetTxReceipt_lookup_error lib L txHash K w e hK hp hl
      have hev := eventsOf_eq _ w _ _ _ h rfl
      refine ⟨?_, fun h31 => absurd hK (Nat.not_lt.mpr h31), ?_, ?_⟩
      · rw [hev, List.filter_append, List.length_append, filter_isSleep_pendingRounds]
        simp [hS1]
        omega
      · intro _ hf
        cases hf
      · intro _ err herr
        cases herr
        exact ⟨hev, by rw [h]⟩
  · have h31 : 31 ≤ K := Nat.not_lt.mp hK
    have hp : ∀ j, j < 31 → pendingFlag
        (L.TransactionByHash (w.lookups + j) (lib.HexToHash txHash)) = .ok true :=
      fun j hj => hpend j (Nat.lt_of_lt_of_le hj h31) hj
    have h := GetTxReceipt_exhausted lib L txHash w hp
    have hev := eventsOf_eq _ w _ _ _ h rfl
    refine ⟨?_, fun _ => hev, fun hlt => absurd hlt hK, fun hlt => absurd hlt hK⟩
    rw [hev, List.filter_append, List.length_append, filter_isSleep_pendingRounds]
    simp [hS2]
    omega

/-- Instance of C10: a transaction that stays pending beyond the 31 checks. -/
theorem GetTxReceipt_sleeps_witness :
    (∀ j, j < 40 → j < 31 → pendingFlag ((Demo.ledger 40 1).TransactionByHash
        ((World.init Demo.session).lookups + j) (Demo.lib.HexToHash Demo.deposit)) = .ok true)
      ∧ ((eventsOf (GetTxReceipt Demo.lib (Demo.ledger 40 1) Demo.deposit)
          (World.init Demo.session)).filter isSleep).length = min 40 31 :=
  ⟨fun j hj _ => by simp [Demo.ledger, pendingFlag, World.init, hj],
   (GetTxReceipt_sleeps Demo.lib (Demo.ledger 40 1) Demo.deposit 40 (World.init Demo.session)
      (.ok false)
      (fun j hj _ => by simp [Demo.ledger, pendingFlag, World.init, hj])
      (fun h => absurd h (by decide))
      (by simp)).1⟩

/-! ### Frame: what a method body may touch -/

theorem emits_pure {α : Type} (P : Event → Prop) (a : α) : Emits P (pure a : Op α) :=
  fun w => ⟨rfl, [], by simp [pure_apply], by simp⟩

theorem emits_self (P : Event → Prop) : Emits P self :=
  fun w => ⟨rfl, [], by simp [self], by simp⟩

theorem emits_fatalf {α : Type} (P : Event → Prop) (f : Fatal) : Emits P (fatalf f : Op α) :=
  fun w => ⟨rfl, [], by simp [fatalf], by simp⟩

theorem emits_liftOutcome {α : Type} (P : Event → Prop) (o : Outcome α) :
    Emits P (liftOutcome o) :=
  fun w => ⟨rfl, [], by simp [liftOutcome], by simp⟩

theorem emits_emit (P : Event → Prop) (e : Event) (h : P e) : Emits P (emit e) :=
  fun w => ⟨rfl, [e], by simp [emit], by simpa using h⟩

theorem emits_call {α : Type} (P : Event → Prop) (e : Event) (answer : Except GoError α)
    (h : P e) : Emits P (call e answer) :=
  fun w => ⟨rfl, [e], by simp [call], by simpa using h⟩

theorem emits_lookupTx (P : Event → Prop) (L : Ledger) (hash : Hash)
    (h : P (.transactionByHash hash)) : Emits P (lookupTx L hash) :=
  fun w => ⟨rfl, [.transactionByHash hash], by simp [lookupTx], by simpa using h⟩

theorem emits_bind {α β : Type} (P : Event → Prop) (m : Op α) (f : α → Op β)
    (hm : Emits P m) (hf : ∀ a, Emits P (f a)) : Emits P (m >>= f) := by
  intro w
  obtain ⟨hec, evs, htr, hP⟩ := hm w
  rw [bind_apply]
  unfold Op.bind
  cases hmw : m w with
  | mk o w1 =>
    rw [hmw] at hec htr
    simp only at hec htr
    cases o with
    | ret a =>
      obtain ⟨hec2, evs2, htr2, hP2⟩ := hf a w1
      refine ⟨by simp only [hec2, hec], evs ++ evs2, ?_, ?_⟩
      · simp only [htr2, htr, List.append_assoc]
      · intro e he
        rcases List.mem_append.mp he with h | h
        · exact hP e h
        · exact hP2 e h
    | fatal f => exact ⟨hec, evs, htr, hP⟩
    | panic => exact ⟨hec, evs, htr, hP⟩

theorem emits_pollPending (P : Event → Prop) (L : Ledger) (hash : Hash)
    (h1 : P (.transactionByHash hash)) (h2 : P (.sleep 1)) :
    ∀ is, Emits P (pollPending L hash is) := by
  intro is
  induction is with
  | nil => exact emits_pure P ()
  | cons i rest ih =>
    unfold pollPending
    apply emits_bind
    · exact emits_lookupTx P L hash h1
    · intro a
      split
      · exact emits_fatalf P _
      · split
        · exact emits_pure P ()
        · apply emits_bind
          · exact emits_emit P _ h2
          · intro _
            exact ih

theorem emits_GetTxReceipt (P : Event → Prop) (lib : Lib) (L : Ledger) (txHash : GoString)
    (h1 : P (.transactionByHash (lib.HexToHash txHash))) (h2 : P (.sleep 1))
    (h3 : P (.transactionReceipt (lib.HexToHash txHash))) :
    Emits P (GetTxReceipt lib L txHash) := by
  unfold GetTxReceipt
  apply emits_bind
  · exact emits_pollPending P L _ h1 h2 _
  · intro _
    apply emits_bind
    · exact emits_call P _ _ h3
    · intro a
      split
      · exact emits_fatalf P _
      · exact emits_pure P _

/-! ### Broadcast and confirmation -/

theorem SendTx_chainId_error (lib : Lib) (L : Ledger) (tx : Transaction) (w : World)
    (err : GoError) (hn : L.NetworkID = .error err) :
    SendTx lib L tx w
      = (.fatal (.networkID err), ⟨w.ec, w.lookups, w.trace ++ [.networkID]⟩) := by
  simp [SendTx, SignTx, GetChainId, bind_apply, Op.bind, self, call, hn, fatalf]

theorem SendTx_sign_error (lib : Lib) (L : Ledger) (tx : Transaction) (w : World)
    (chainId : Int) (err : GoError) (hn : L.NetworkID = .ok chainId)
    (hs : lib.SignTx tx chainId w.ec.PrivateKey = .error err) :
    SendTx lib L tx w
      = (.fatal (.signTx err), ⟨w.ec, w.lookups, w.trace ++ [.networkID]⟩) := by
  simp [SendTx, SignTx, GetChainId, bind_apply, Op.bind, self, call, hn, hs, fatalf, pure_apply]

theorem SendTx_rejected (lib : Lib) (L : Ledger) (tx : Transaction) (w : World)
    (chainId : Int) (signedTx : Transaction) (err : GoError) (hn : L.NetworkID = .ok chainId)
    (hs : lib.SignTx tx chainId w.ec.PrivateKey = .ok signedTx)
    (hr : L.SendTransaction signedTx = some err) :
    SendTx lib L tx w
      = (.fatal (.sendTx err), submitted w signedTx (lib.TxHash signedTx).Hex) := by
  simp [SendTx, SignTx, GetChainId, bind_apply, Op.bind, self, call, hn, hs, hr, fatalf,
    pure_apply, emit, submitted]

theorem SendTx_accepted (lib : Lib) (L : Ledger) (tx : Transaction) (w : World)
    (chainId : Int) (signedTx : Transaction) (hn : L.NetworkID = .ok chainId)
    (hs : lib.SignTx tx chainId w.ec.PrivateKey = .ok signedTx)
    (ha : L.SendTransaction signedTx = none) :
    SendTx lib L tx w
      = afterReceipt (lib.TxHash signedTx).Hex
          (GetTxReceipt lib L (lib.TxHash signedTx).Hex
            (submitted w signedTx (lib.TxHash signedTx).Hex)) := by
  simp only [SendTx, SignTx, GetChainId, bind_apply, Op.bind, self, call, hn, hs, ha, fatalf,
    pure_apply, emit, submitted, List.append_assoc, List.cons_append, List.nil_append]
  cases hg : GetTxReceipt lib L (lib.TxHash signedTx).Hex
      ⟨w.ec, w.lookups, w.trace ++ [Event.networkID,
        Event.print (Line.signedHash (lib.TxHash signedTx).Hex),
        Event.sendTransaction signedTx]⟩ with
  | mk o w2 =>
    cases o with
    | ret receipt =>
      simp only [afterReceipt, statusLines]
      by_cases h0 : receipt.Status = 0
      · simp [h0, bind_apply, Op.bind, emit, pure_apply]
      · by_cases h1 : receipt.Status = 1
        · simp [h1, bind_apply, Op.bind, emit, pure_apply]
        · simp [h0, h1, bind_apply, Op.bind, pure_apply]
    | fatal f => simp [afterReceipt]
    | panic => simp [afterReceipt]

theorem afterReceipt_trace (lib : Lib) (L : Ledger) (txHash : GoString) (w : World) :
    ∃ tail, (afterReceipt txHash (GetTxReceipt lib L txHash w)).2.trace = w.trace ++ tail
      ∧ ∀ e ∈ tail, isSend e = false := by
  obtain ⟨_, evs, htr, hP⟩ := emits_GetTxReceipt (fun e => isSend e = false) lib L txHash
    rfl rfl rfl w
  cases hg : GetTxReceipt lib L txHash w with
  | mk o w2 =>
    rw [hg] at htr
    simp only at htr
    cases o with
    | ret receipt =>
      refine ⟨evs ++ statusLines txHash receipt.Status, ?_, ?_⟩
      · simp [afterReceipt, htr]
      · intro e he
        rcases List.mem_append.mp he with h | h
        · exact hP e h
        · unfold statusLines at h
          split at h
          · simp at h; subst h; rfl
          · split at h
            · simp at h; subst h; rfl
            · simp at h
    | fatal f => exact ⟨evs, by simp [afterReceipt, htr], hP⟩
    | panic => exact ⟨evs, by simp [afterReceipt, htr], hP⟩

theorem split_at_send (a b : Event) (stx0 : Transaction) (tail : List Event)
    (ha : isSend a = false) (hb : isSend b = false) (htail : ∀ e ∈ tail, isSend e = false)
    (pre : List Event) (stx : Transaction) (post : List Event)
    (h : a :: b :: Event.sendTransaction stx0 :: tail
      = pre ++ Event.sendTransaction stx :: post) :
    pre = [a, b] ∧ stx = stx0 := by
  match pre, h with
  | [], h =>
    simp at h
    rw [h.1] at ha
    simp [isSend] at ha
  | [x], h =>
    simp at h
    rw [h.2.1] at hb
    simp [isSend] at hb
  | [x, y], h =>
    simp at h
    exact ⟨by rw [h.1, h.2.1], h.2.2.1.symm⟩
  | x :: y :: z :: pre1, h =>
    simp at h
    have hmem : Event.sendTransaction stx ∈ tail := by
      rw [h.2.2.2]
      simp
    have := htail _ hmem
    simp [isSend] at this

theorem filter_isSend_eq_nil (evs : List Event) (h : ∀ e ∈ evs, isSend e = false) :
    evs.filter isSend = [] := by
  rw [List.filter_eq_nil_iff]
  intro e he
  simp [h e he]

/-- Shape of every run of `SendTx`: it ends after the chain-id query, or it
submits once and is rejected, or it submits once and goes on without further
submissions. -/
theorem SendTx_shape (lib : Lib) (L : Ledger) (tx : Transaction) (w : World) :
    (∃ f, (SendTx lib L tx w).1 = .fatal f ∧ eventsOf (SendTx lib L tx) w = [.networkID])
    ∨ (∃ stx err h, L.SendTransaction stx = some err
        ∧ (SendTx lib L tx w).1 = .fatal (.sendTx err)
        ∧ eventsOf (SendTx lib L tx) w
          = [.networkID, .print (.signedHash h), .sendTransaction stx])
    ∨ (∃ stx h tail, L.SendTransaction stx = none
        ∧ eventsOf (SendTx lib L tx) w
          = .networkID :: .print (.signedHash h) :: .sendTransaction stx :: tail
        ∧ ∀ e ∈ tail, isSend e = false) := by
  cases hn : L.NetworkID with
  | error err =>
    have h := SendTx_chainId_error lib L tx w err hn
    exact Or.inl ⟨_, by rw [h], eventsOf_eq _ w _ _ _ h rfl⟩
  | ok chainId =>
    cases hs : lib.SignTx tx chainId w.ec.PrivateKey with
    | error err =>
      have h := SendTx_sign_error lib L tx w chainId err hn hs
      exact Or.inl ⟨_, by rw [h], eventsOf_eq _ w _ _ _ h rfl⟩
    | ok stx =>
      cases hr : L.SendTransaction stx with
      | some err =>
        have h := SendTx_rejected lib L tx w chainId stx err hn hs hr
        exact Or.inr (Or.inl ⟨stx, err, _, hr, by rw [h], eventsOf_eq _ w _ _ _ h rfl⟩)
      | none =>
        have h := SendTx_accepted lib L tx w chainId stx hn hs hr
        obtain ⟨tail, htr, htail⟩ := afterReceipt_trace lib L (lib.TxHash stx).Hex
          (submitted w stx (lib.TxHash stx).Hex)
        refine Or.inr (Or.inr ⟨stx, (lib.TxHash stx).Hex, tail, hr, ?_, htail⟩)
        unfold eventsOf
        rw [h, htr]
        simp [submitted]

/-- Order of the actions in every run of `SendTx`: at most one submission,
nothing polled or fetched before it or without it, and nothing polled or
fetched when the submitted transaction is rejected. -/
theorem SendTx_order (lib : Lib) (L : Ledger) (tx : Transaction) (w : World) :
    ((eventsOf (SendTx lib L tx) w).filter isSend).length ≤ 1
      ∧ (∀ pre stx post,
          eventsOf (SendTx lib L tx) w = pre ++ Event.sendTransaction stx :: post →
          ∀ e ∈ pre, isPendingCheck e = false ∧ isReceiptFetch e = false)
      ∧ ((eventsOf (SendTx lib L tx) w).filter isSend = [] →
          ∀ e ∈ eventsOf (SendTx lib L tx) w,
            isPendingCheck e = false ∧ isReceiptFetch e = false)
      ∧ (∀ stx err, Event.sendTransaction stx ∈ eventsOf (SendTx lib L tx) w →
          L.SendTransaction stx = some err →
          (SendTx lib L tx w).1 = .fatal (.sendTx err)
            ∧ ∀ e ∈ eventsOf (SendTx lib L tx) w,
                isPendingCheck e = false ∧ isReceiptFetch e = false) := by
  rcases SendTx_shape lib L tx w with ⟨f, _, hev⟩ | ⟨stx0, err0, h0, hrej, hout, hev⟩ |
    ⟨stx0, h0, tail, hacc, hev, htail⟩
  · rw [hev]
    refine ⟨by simp [isSend], ?_, ?_, ?_⟩
    · intro pre stx post h
      match pre, h with
      | [], h => simp at h
      | [x], h => simp at h
      | x :: y :: pre1, h => simp at h
    · intro _ e he
      simp at he
      subst he
      exact ⟨rfl, rfl⟩
    · intro stx err hmem
      simp at hmem
  · rw [hev]
    have hall : ∀ e ∈ [Event.networkID, Event.print (Line.signedHash h0),
        Event.sendTransaction stx0], isPendingCheck e = false ∧ isReceiptFetch e = false := by
      intro e he
      simp at he
      rcases he with h | h | h <;> subst h <;> exact ⟨rfl, rfl⟩
    refine ⟨by simp [isSend], ?_, ?_, ?_⟩
    · intro pre stx post h
      obtain ⟨hpre, _⟩ := split_at_send Event.networkID (Event.print (Line.signedHash h0)) stx0 [] rfl rfl
        (by simp) pre stx post h
      subst hpre
      intro e he
      exact hall e (by simp at he ⊢; rcases he with h | h <;> simp [h])
    · intro hnil
      simp [isSend] at hnil
    · intro stx err hmem hr
      simp at hmem
      subst hmem
      rw [hrej] at hr
      cases hr
      exact ⟨hout, hall⟩
  · rw [hev]
    refine ⟨?_, ?_, ?_, ?_⟩
    · simp [isSend, filter_isSend_eq_nil tail htail]
    · intro pre stx post h
      obtain ⟨hpre, _⟩ := split_at_send Event.networkID (Event.print (Line.signedHash h0)) stx0 tail rfl rfl
        htail pre stx post h
      subst hpre
      intro e he
      simp at he
      rcases he with h | h <;> subst h <;> exact ⟨rfl, rfl⟩
    · intro hnil
      simp [isSend] at hnil
    · intro stx err hmem hr
      simp at hmem
      rcases hmem with h | h
      · subst h
        rw [hacc] at hr
        cases hr
      · have := htail _ h
        simp [isSend] at this

/-- The submission of `SendTx`: once the chain id is answered and signing
succeeds, the log of the run starts with the chain-id query, the printed hash
and the submission of the signed transaction, and has no other submission. -/
theorem SendTx_submission (lib : Lib) (L : Ledger) (tx : Transaction) (w : World)
    (chainId : Int) (signedTx : Transaction) (hn : L.NetworkID = .ok chainId)
    (hs : lib.SignTx tx chainId w.ec.PrivateKey = .ok signedTx) :
    ∃ tail, eventsOf (SendTx lib L tx) w
        = .networkID :: .print (.signedHash (lib.TxHash signedTx).Hex)
            :: .sendTransaction signedTx :: tail
      ∧ ∀ e ∈ tail, isSend e = false := by
  cases hr : L.SendTransaction signedTx with
  | some err =>
    have h := SendTx_rejected lib L tx w chainId signedTx err hn hs hr
    exact ⟨[], eventsOf_eq _ w _ _ _ h rfl, by simp⟩
  | none =>
    have h := SendTx_accepted lib L tx w chainId signedTx hn hs hr
    obtain ⟨tail, htr, htail⟩ := afterReceipt_trace lib L (lib.TxHash signedTx).Hex
      (submitted w signedTx (lib.TxHash signedTx).Hex)
    refine ⟨tail, ?_, htail⟩
    unfold eventsOf
    rw [h, htr]
    simp [submitted]

/-- C5: `SendTx` submits the signed transaction exactly once and never
retries. For every ledger: when the chain id is answered and `types.SignTx`
returns a signed transaction, the log of the run has exactly one submission,
that of this signed transaction, placed right after the chain-id query and the
printed hash and before everything else; when the chain-id query or the
signing fails nothing is submitted and the run is fatal; a rejected submission
ends the run in `log.Fatalf` right there, with no pending-check, no receipt
fetch and no receipt; an accepted one is followed by `GetTxReceipt` on the
hash of the signed transaction. In every run there is at most one submission,
and no pending-check or receipt fetch comes before it or without it. -/
theorem SendTx_submits_once (lib : Lib) (L : Ledger) (tx : Transaction) (w : World) :
    ((eventsOf (SendTx lib L tx) w).filter isSend).length ≤ 1
      ∧ (∀ pre stx post,
          eventsOf (SendTx lib L tx) w = pre ++ Event.sendTransaction stx :: post →
          ∀ e ∈ pre, isPendingCheck e = false ∧ isReceiptFetch e = false)
      ∧ ((eventsOf (SendTx lib L tx) w).filter isSend = [] →
          ∀ e ∈ eventsOf (SendTx lib L tx) w,
            isPendingCheck e = false ∧ isReceiptFetch e = false)
      ∧ (∀ stx err, Event.sendTransaction stx ∈ eventsOf (SendTx lib L tx) w →
          L.SendTransaction stx = some err →
          (SendTx lib L tx w).1 = .fatal (.sendTx err)
            ∧ ∀ e ∈ eventsOf (SendTx lib L tx) w,
                isPendingCheck e = false ∧ isReceiptFetch e = false)
      ∧ (∀ chainId signedTx, L.NetworkID = .ok chainId →
          lib.SignTx tx chainId w.ec.PrivateKey = .ok signedTx →
          (eventsOf (SendTx lib L tx) w).filter isSend = [Event.sendTransaction signedTx]
            ∧ ∃ tail, eventsOf (SendTx lib L tx) w
                = .networkID :: .print (.signedHash (lib.TxHash signedTx).Hex)
                    :: .sendTransaction signedTx :: tail
              ∧ ∀ e ∈ tail, isSend e = false)
      ∧ (∀ chainId signedTx err, L.NetworkID = .ok chainId →
          lib.SignTx tx chainId w.ec.PrivateKey = .ok signedTx →
          L.SendTransaction signedTx = some err →
          SendTx lib L tx w
            = (.fatal (.sendTx err), submitted w signedTx (lib.TxHash signedTx).Hex))
      ∧ (∀ chainId signedTx, L.NetworkID = .ok chainId →
          lib.SignTx tx chainId w.ec.PrivateKey = .ok signedTx →
          L.SendTransaction signedTx = none →
          SendTx lib L tx w
            = afterReceipt (lib.TxHash signedTx).Hex
                (GetTxReceipt lib L (lib.TxHash signedTx).Hex
                  (submitted w signedTx (lib.TxHash signedTx).Hex)))
      ∧ (∀ err, L.NetworkID = .error err →
          SendTx lib L tx w
            = (.fatal (.networkID err), ⟨w.ec, w.lookups, w.trace ++ [.networkID]⟩))
      ∧ (∀ chainId err, L.NetworkID = .ok chainId →
          lib.SignTx tx chainId w.ec.PrivateKey = .error err →
          SendTx lib L tx w
            = (.fatal (.signTx err), ⟨w.ec, w.lookups, w.trace ++ [.networkID]⟩)) := by
  obtain ⟨h1, h2, h3, h4⟩ := SendTx_order lib L tx w
  refine ⟨h1, h2, h3, h4, ?_, ?_, ?_, ?_, ?_⟩
  · intro chainId signedTx hn hs
    obtain ⟨tail, hev, htail⟩ := SendTx_submission lib L tx w chainId signedTx hn hs
    refine ⟨?_, tail, hev, htail⟩
    rw [hev]
    simp [isSend, filter_isSend_eq_nil tail htail]
  · intro chainId signedTx err hn hs hr
    exact SendTx_rejected lib L tx w chainId signedTx err hn hs hr
  · intro chainId signedTx hn hs ha
    exact SendTx_accepted lib L tx w chainId signedTx hn hs ha
  · intro err hn
    exact SendTx_chainId_error lib L tx w err hn
  · intro chainId err hn hs
    exact SendTx_sign_error lib L tx w chainId err hn hs

/-- Instance of C5: on the stand-in ledger the one submission of the run is
the transaction signed for chain 1337. -/
theorem SendTx_submits_once_witness :
    (Demo.ledger 0 1).NetworkID = .ok 1337
      ∧ Demo.lib.SignTx Demo.tx 1337 (World.init Demo.session).ec.PrivateKey
        = .ok Demo.signedTx
      ∧ (eventsOf (SendTx Demo.lib (Demo.ledger 0 1) Demo.tx) (World.init Demo.session)).filter
          isSend = [Event.sendTransaction Demo.signedTx] :=
  ⟨rfl, rfl,
    ((SendTx_submits_once Demo.lib (Demo.ledger 0 1) Demo.tx
      (World.init Demo.session)).2.2.2.2.1 1337 Demo.signedTx rfl rfl).1⟩

/-- C4, as stated, fails: for a receipt of status 2 `SendTx` returns the
receipt normally and prints nothing about the status. The log ends with the
receipt fetch, so the run is neither an error nor a reported outcome. -/
theorem SendTx_status_two_silent :
    SendTx Demo.lib (Demo.ledger 0 2) Demo.tx (World.init Demo.session)
        = (.ret ⟨2, Demo.lib.HexToHash (Demo.lib.TxHash Demo.signedTx).Hex, 7⟩,
            ⟨Demo.session, 1,
              [.networkID, .print (.signedHash (Demo.lib.TxHash Demo.signedTx).Hex),
               .sendTransaction Demo.signedTx,
               .transactionByHash (Demo.lib.HexToHash (Demo.lib.TxHash Demo.signedTx).Hex),
               .transactionReceipt (Demo.lib.HexToHash (Demo.lib.TxHash Demo.signedTx).Hex)]⟩)
      ∧ ¬ ((∃ f, (SendTx Demo.lib (Demo.ledger 0 2) Demo.tx (World.init Demo.session)).1
              = .fatal f)
          ∨ ∃ line, Event.print line
              ∈ eventsOf (SendTx Demo.lib (Demo.ledger 0 2) Demo.tx) (World.init Demo.session)
            ∧ line ≠ .signedHash (Demo.lib.TxHash Demo.signedTx).Hex) := by
  have h : SendTx Demo.lib (Demo.ledger 0 2) Demo.tx (World.init Demo.session)
        = (.ret ⟨2, Demo.lib.HexToHash (Demo.lib.TxHash Demo.signedTx).Hex, 7⟩,
            ⟨Demo.session, 1,
              [.networkID, .print (.signedHash (Demo.lib.TxHash Demo.signedTx).Hex),
               .sendTransaction Demo.signedTx,
               .transactionByHash (Demo.lib.HexToHash (Demo.lib.TxHash Demo.signedTx).Hex),
               .transactionReceipt
                 (Demo.lib.HexToHash (Demo.lib.TxHash Demo.signedTx).Hex)]⟩) := by
    decide
  refine ⟨h, ?_⟩
  rintro (⟨f, hf⟩ | ⟨line, hmem, hne⟩)
  · rw [h] at hf
    cases hf
  · have hev := eventsOf_eq _ (World.init Demo.session) _ _ _ h rfl
    rw [hev] at hmem
    simp at hmem
    exact hne hmem

/-- C4, amended: once the submission is accepted and `GetTxReceipt` returns a
receipt, `SendTx` returns this receipt; it prints the failure line for status
0, the success line for status 1, and nothing for any other status. -/
theorem SendTx_status_lines (lib : Lib) (L : Ledger) (tx : Transaction) (w w2 : World)
    (chainId : Int) (signedTx : Transaction) (receipt : Receipt)
    (hn : L.NetworkID = .ok chainId)
    (hs : lib.SignTx tx chainId w.ec.PrivateKey = .ok signedTx)
    (ha : L.SendTransaction signedTx = none)
    (hg : GetTxReceipt lib L (lib.TxHash signedTx).Hex
        (submitted w signedTx (lib.TxHash signedTx).Hex) = (.ret receipt, w2)) :
    (SendTx lib L tx w).1 = .ret receipt
      ∧ (receipt.Status = 0 → (SendTx lib L tx w).2.trace
          = w2.trace ++ [.print (.txFailed (lib.TxHash signedTx).Hex)])
      ∧ (receipt.Status = 1 → (SendTx lib L tx w).2.trace
          = w2.trace ++ [.print (.txSucceeded (lib.TxHash signedTx).Hex)])
      ∧ (receipt.Status ≠ 0 → receipt.Status ≠ 1 → (SendTx lib L tx w).2.trace = w2.trace) := by
  have h := SendTx_accepted lib L tx w chainId signedTx hn hs ha
  rw [hg] at h
  rw [h]
  refine ⟨rfl, ?_, ?_, ?_⟩
  · intro h0
    simp [afterReceipt, statusLines, h0]
  · intro h1
    simp [afterReceipt, statusLines, h1]
  · intro h0 h1
    simp [afterReceipt, statusLines, h0, h1]

/-- Instance of the amended C4: a receipt of status 1. -/
theorem SendTx_status_lines_witness :
    (Demo.ledger 0 1).NetworkID = .ok 1337
      ∧ (SendTx Demo.lib (Demo.ledger 0 1) Demo.tx (World.init Demo.session)).1
        = .ret ⟨1, Demo.lib.HexToHash (Demo.lib.TxHash Demo.signedTx).Hex, 7⟩ :=
  ⟨rfl, (SendTx_status_lines Demo.lib (Demo.ledger 0 1) Demo.tx (World.init Demo.session)
    ⟨Demo.session, 1,
      [.networkID, .print (.signedHash (Demo.lib.TxHash Demo.signedTx).Hex),
       .sendTransaction Demo.signedTx,
       .transactionByHash (Demo.lib.HexToHash (Demo.lib.TxHash Demo.signedTx).Hex),
       .transactionReceipt (Demo.lib.HexToHash (Demo.lib.TxHash Demo.signedTx).Hex)]⟩
    1337 Demo.signedTx ⟨1, Demo.lib.HexToHash (Demo.lib.TxHash Demo.signedTx).Hex, 7⟩
    rfl rfl rfl (by decide)).1⟩

/-- C6: `CreateTx` returns a transaction exactly when the nonce, gas-price and
gas-estimate queries all succeed; then it is the legacy transaction with
exactly the three returned values, the recipient decoded from `toAccount`, the
given value and the given data; when some query fails the run ends in
`log.Fatalf` and returns nothing. -/
theorem CreateTx_all_or_nothing (lib : Lib) (L : Ledger) (toAccount : GoString)
    (data : List Byte) (value : Int) (w : World) :
    ((∃ tx, (CreateTx lib L toAccount data value w).1 = .ret tx)
        ↔ ∃ nonce gasPrice gasLimit,
            L.PendingNonceAt w.ec.Address = .ok nonce
            ∧ L.SuggestGasPrice = .ok gasPrice
            ∧ L.EstimateGas ⟨w.ec.Address, some (lib.HexToAddress toAccount), data, value⟩
              = .ok gasLimit)
      ∧ (∀ nonce gasPrice gasLimit,
          L.PendingNonceAt w.ec.Address = .ok nonce →
          L.SuggestGasPrice = .ok gasPrice →
          L.EstimateGas ⟨w.ec.Address, some (lib.HexToAddress toAccount), data, value⟩
            = .ok gasLimit →
          (CreateTx lib L toAccount data value w).1
            = .ret (NewTx { Nonce := nonce, GasPrice := gasPrice, Gas := gasLimit,
                            To := some (lib.HexToAddress toAccount), Value := value,
                            Data := data }))
      ∧ (((∃ err, L.PendingNonceAt w.ec.Address = .error err)
          ∨ (∃ err, L.SuggestGasPrice = .error err)
          ∨ (∃ err, L.EstimateGas
              ⟨w.ec.Address, some (lib.HexToAddress toAccount), data, value⟩ = .error err)) →
          ∃ f, (CreateTx lib L toAccount data value w).1 = .fatal f) := by
  cases h1 : L.PendingNonceAt w.ec.Address with
  | error e1 =>
    simp [CreateTx, GetNonce, bind_apply, Op.bind, self, call, h1, fatalf]
  | ok nonce =>
    cases h2 : L.SuggestGasPrice with
    | error e2 =>
      simp [CreateTx, GetNonce, GetGasPrice, bind_apply, Op.bind, self, call, h1, h2, fatalf,
        pure_apply]
    | ok gasPrice =>
      cases h3 : L.EstimateGas
          ⟨w.ec.Address, some (lib.HexToAddress toAccount), data, value⟩ with
      | error e3 =>
        simp [CreateTx, GetNonce, GetGasPrice, EstimateGas, bind_apply, Op.bind, self, call,
          h1, h2, h3, fatalf, pure_apply]
      | ok gasLimit =>
        simp [CreateTx, GetNonce, GetGasPrice, EstimateGas, bind_apply, Op.bind, self, call,
          h1, h2, h3, fatalf, pure_apply]

/-! ### Zero-argument contract calls -/

theorem bind_pure_apply {α : Type} (m : Op α) (w : World) :
    (m >>= fun a => (pure a : Op α)) w = m w := by
  rw [bind_apply]
  unfold Op.bind
  cases hm : m w with
  | mk o w1 => cases o <;> rfl

theorem InvokeContractWithoutArgs_eq (lib : Lib) (L : Ledger) (contractAddr method : GoString)
    (value : Int) (w : World) :
    InvokeContractWithoutArgs lib L contractAddr method value w
      = (CreateTx lib L contractAddr
          ((lib.Keccak256Hash (method ++ [40, 41])).val.take 4) value
          >>= fun tx => SendTx lib L tx) w := by
  have hp : PackMethodData lib method []
      = .ret ((lib.Keccak256Hash (method ++ [40, 41])).val.take 4) := by
    rw [PackMethodData_eq]
    simp [canonicalSignature, List.intercalate]
  unfold InvokeContractWithoutArgs
  rw [bind_apply]
  simp only [Op.bind, liftOutcome, hp]
  rw [bind_apply, bind_apply]
  unfold Op.bind
  cases hc : CreateTx lib L contractAddr
      ((lib.Keccak256Hash (method ++ [40, 41])).val.take 4) value w with
  | mk o w1 =>
    cases o with
    | ret tx => exact bind_pure_apply _ _
    | fatal f => rfl
    | panic => rfl

theorem CreateTx_ok (lib : Lib) (L : Ledger) (toAccount : GoString) (data : List Byte)
    (value : Int) (w : World) (nonce : Nat) (gasPrice : Int) (gasLimit : Nat)
    (h1 : L.PendingNonceAt w.ec.Address = .ok nonce)
    (h2 : L.SuggestGasPrice = .ok gasPrice)
    (h3 : L.EstimateGas ⟨w.ec.Address, some (lib.HexToAddress toAccount), data, value⟩
      = .ok gasLimit) :
    CreateTx lib L toAccount data value w
      = (.ret (NewTx { Nonce := nonce, GasPrice := gasPrice, Gas := gasLimit,
                       To := some (lib.HexToAddress toAccount), Value := value,
                       Data := data }),
          ⟨w.ec, w.lookups, w.trace ++
            [.pendingNonceAt w.ec.Address, .suggestGasPrice,
             .estimateGas ⟨w.ec.Address, some (lib.HexToAddress toAccount), data, value⟩]⟩) := by
  simp [CreateTx, GetNonce, GetGasPrice, EstimateGas, bind_apply, Op.bind, self, call,
    h1, h2, h3, pure_apply]

theorem InvokeContractWithoutArgs_run (lib : Lib) (L : Ledger)
    (contractAddr method : GoString) (value : Int) (w : World)
    (nonce : Nat) (gasPrice : Int) (gasLimit : Nat) (chainId : Int)
    (signedTx : Transaction) (receipt : Receipt)
    (hnonce : L.PendingNonceAt w.ec.Address = .ok nonce)
    (hprice : L.SuggestGasPrice = .ok gasPrice)
    (hgas : L.EstimateGas ⟨w.ec.Address, some (lib.HexToAddress contractAddr),
        (lib.Keccak256Hash (method ++ [40, 41])).val.take 4, value⟩ = .ok gasLimit)
    (hchain : L.NetworkID = .ok chainId)
    (hsign : lib.SignTx
        (NewTx { Nonce := nonce, GasPrice := gasPrice, Gas := gasLimit,
                 To := some (lib.HexToAddress contractAddr), Value := value,
                 Data := (lib.Keccak256Hash (method ++ [40, 41])).val.take 4 })
        chainId w.ec.PrivateKey = .ok signedTx)
    (hsend : L.SendTransaction signedTx = none)
    (hsettled : pendingFlag
        (L.TransactionByHash w.lookups (lib.HexToHash (lib.TxHash signedTx).Hex)) = .ok false)
    (hreceipt : L.TransactionReceipt (lib.HexToHash (lib.TxHash signedTx).Hex) = .ok receipt)
    (hstatus : receipt.Status = 1) :
    (InvokeContractWithoutArgs lib L contractAddr method value w).1 = .ret receipt
      ∧ eventsOf (InvokeContractWithoutArgs lib L contractAddr method value) w
        = [.pendingNonceAt w.ec.Address, .suggestGasPrice,
           .estimateGas ⟨w.ec.Address, some (lib.HexToAddress contractAddr),
             (lib.Keccak256Hash (method ++ [40, 41])).val.take 4, value⟩,
           .networkID, .print (.signedHash (lib.TxHash signedTx).Hex),
           .sendTransaction signedTx,
           .transactionByHash (lib.HexToHash (lib.TxHash signedTx).Hex),
           .transactionReceipt (lib.HexToHash (lib.TxHash signedTx).Hex),
           .print (.txSucceeded (lib.TxHash signedTx).Hex)] := by
  have hcomp := InvokeContractWithoutArgs_eq lib L contractAddr method value w
  have hcreate := CreateTx_ok lib L contractAddr
    ((lib.Keccak256Hash (method ++ [40, 41])).val.take 4) value w nonce gasPrice gasLimit
    hnonce hprice hgas
  have hrun : InvokeContractWithoutArgs lib L contractAddr method value w
      = (.ret receipt, ⟨w.ec, w.lookups + 1, w.trace ++
        [.pendingNonceAt w.ec.Address, .suggestGasPrice,
           .estimateGas ⟨w.ec.Address, some (lib.HexToAddress contractAddr),
             (lib.Keccak256Hash (method ++ [40, 41])).val.take 4, value⟩,
           .networkID, .print (.signedHash (lib.TxHash signedTx).Hex),
           .sendTransaction signedTx,
           .transactionByHash (lib.HexToHash (lib.TxHash signedTx).Hex),
           .transactionReceipt (lib.HexToHash (lib.TxHash signedTx).Hex),
           .print (.txSucceeded (lib.TxHash signedTx).Hex)]⟩) := by
    have hacc := SendTx_accepted lib L
      (NewTx { Nonce := nonce, GasPrice := gasPrice, Gas := gasLimit,
               To := some (lib.HexToAddress contractAddr), Value := value,
               Data := (lib.Keccak256Hash (method ++ [40, 41])).val.take 4 })
      ⟨w.ec, w.lookups, w.trace ++
        [.pendingNonceAt w.ec.Address, .suggestGasPrice,
         .estimateGas ⟨w.ec.Address, some (lib.HexToAddress contractAddr),
           (lib.Keccak256Hash (method ++ [40, 41])).val.take 4, value⟩]⟩
      chainId signedTx hchain hsign hsend
    have hget := GetTxReceipt_settled lib L (lib.TxHash signedTx).Hex 0
      (submitted ⟨w.ec, w.lookups, w.trace ++
        [.pendingNonceAt w.ec.Address, .suggestGasPrice,
         .estimateGas ⟨w.ec.Address, some (lib.HexToAddress contractAddr),
           (lib.Keccak256Hash (method ++ [40, 41])).val.take 4, value⟩]⟩
        signedTx (lib.TxHash signedTx).Hex)
      (by decide) (fun j hj => absurd hj (Nat.not_lt_zero j))
      (by simpa [submitted] using hsettled)
    rw [hcomp, bind_apply]
    simp only [Op.bind, hcreate]
    rw [hacc, hget]
    simp [afterReceipt, receiptOutcome, hreceipt, statusLines, hstatus, submitted,
      pendingRounds]
  exact ⟨by rw [hrun], eventsOf_eq _ w _ _ _ hrun rfl⟩



/-- C9: `InvokeContractWithoutArgs` is `SendTx` after `CreateTx` on the
result of `PackMethodData method`, which is always the selector of `method()`:
exactly 4 bytes. On a ledger that answers the nonce, gas-price, gas-estimate
and chain-id queries, accepts the submission, reports not-pending on the first
check and returns a receipt of status 1, the transaction handed to the signer
is the legacy transaction to `contractAddr` with the given value and the
selector as data, and the receipt is returned. -/
theorem InvokeContractWithoutArgs_composes (lib : Lib) (L : Ledger)
    (contractAddr method : GoString) (value : Int) :
    PackMethodData lib method [] = .ret ((lib.Keccak256Hash (method ++ [40, 41])).val.take 4)
      ∧ ((lib.Keccak256Hash (method ++ [40, 41])).val.take 4).length = 4
      ∧ (∀ w, InvokeContractWithoutArgs lib L contractAddr method value w
          = (CreateTx lib L contractAddr
              ((lib.Keccak256Hash (method ++ [40, 41])).val.take 4) value
              >>= fun tx => SendTx lib L tx) w)
      ∧ (∀ (w : World) (nonce : Nat) (gasPrice : Int) (gasLimit : Nat) (chainId : Int)
          (signedTx : Transaction) (receipt : Receipt),
          L.PendingNonceAt w.ec.Address = .ok nonce →
          L.SuggestGasPrice = .ok gasPrice →
          L.EstimateGas ⟨w.ec.Address, some (lib.HexToAddress contractAddr),
            (lib.Keccak256Hash (method ++ [40, 41])).val.take 4, value⟩ = .ok gasLimit →
          L.NetworkID = .ok chainId →
          lib.SignTx
            (NewTx { Nonce := nonce, GasPrice := gasPrice, Gas := gasLimit,
                     To := some (lib.HexToAddress contractAddr), Value := value,
                     Data := (lib.Keccak256Hash (method ++ [40, 41])).val.take 4 })
            chainId w.ec.PrivateKey = .ok signedTx →
          L.SendTransaction signedTx = none →
          pendingFlag (L.TransactionByHash w.lookups
            (lib.HexToHash (lib.TxHash signedTx).Hex)) = .ok false →
          L.TransactionReceipt (lib.HexToHash (lib.TxHash signedTx).Hex) = .ok receipt →
          receipt.Status = 1 →
          (InvokeContractWithoutArgs lib L contractAddr method value w).1 = .ret receipt
            ∧ eventsOf (InvokeContractWithoutArgs lib L contractAddr method value) w
              = [.pendingNonceAt w.ec.Address, .suggestGasPrice,
                 .estimateGas ⟨w.ec.Address, some (lib.HexToAddress contractAddr),
                   (lib.Keccak256Hash (method ++ [40, 41])).val.take 4, value⟩,
                 .networkID, .print (.signedHash (lib.TxHash signedTx).Hex),
                 .sendTransaction signedTx,
                 .transactionByHash (lib.HexToHash (lib.TxHash signedTx).Hex),
                 .transactionReceipt (lib.HexToHash (lib.TxHash signedTx).Hex),
                 .print (.txSucceeded (lib.TxHash signedTx).Hex)]) := by
  refine ⟨?_, ?_, InvokeContractWithoutArgs_eq lib L contractAddr method value, ?_⟩
  · rw [PackMethodData_eq]
    simp [canonicalSignature, List.intercalate]
  · simp [(lib.Keccak256Hash _).property]
  · intro w nonce gasPrice gasLimit chainId signedTx receipt h1 h2 h3 h4 h5 h6 h7 h8 h9
    exact InvokeContractWithoutArgs_run lib L contractAddr method value w nonce gasPrice
      gasLimit chainId signedTx receipt h1 h2 h3 h4 h5 h6 h7 h8 h9

/-- Instance of C9: `deposit()` invoked with value 55555 on a ledger that
answers everything and settles the transaction at once. -/
theorem InvokeContractWithoutArgs_composes_witness :
    (Demo.ledger 0 1).NetworkID = .ok 1337
      ∧ Demo.lib.SignTx
          (NewTx { Nonce := 5, GasPrice := 1000000000, Gas := 21000,
                   To := some (Demo.lib.HexToAddress Demo.contract), Value := 55555,
                   Data := (Demo.lib.Keccak256Hash (Demo.deposit ++ [40, 41])).val.take 4 })
          1337 (World.init Demo.session).ec.PrivateKey = .ok Demo.signedCall
      ∧ (InvokeContractWithoutArgs Demo.lib (Demo.ledger 0 1) Demo.contract Demo.deposit 55555
          (World.init Demo.session)).1
        = .ret ⟨1, Demo.lib.HexToHash (Demo.lib.TxHash Demo.signedCall).Hex, 7⟩ :=
  ⟨rfl, rfl,
    ((InvokeContractWithoutArgs_composes Demo.lib (Demo.ledger 0 1) Demo.contract Demo.deposit
      55555).2.2.2 (World.init Demo.session) 5 1000000000 21000 1337 Demo.signedCall
      ⟨1, Demo.lib.HexToHash (Demo.lib.TxHash Demo.signedCall).Hex, 7⟩
      rfl rfl rfl rfl rfl rfl rfl rfl rfl).1⟩

/-! ### The session -/

theorem emits_discard {α : Type} (P : Event → Prop) (m : Op α) (hm : Emits P m) :
    Emits P (discard m) := by
  unfold discard
  exact emits_bind P _ _ hm (fun _ => emits_pure P ())

theorem emits_SendTx (lib : Lib) (L : Ledger) (tx : Transaction) :
    Emits (fun _ => True) (SendTx lib L tx) := by
  unfold SendTx SignTx GetChainId
  repeat' first
    | exact emits_GetTxReceipt _ lib L _ trivial trivial trivial
    | exact emits_pure _ _
    | exact emits_self _
    | exact emits_fatalf _ _
    | exact emits_call _ _ _ trivial
    | exact emits_emit _ _ trivial
    | apply emits_bind
    | split
    | intro _

theorem emits_CreateTx (lib : Lib) (L : Ledger) (toAccount : GoString) (data : List Byte)
    (value : Int) : Emits (fun _ => True) (CreateTx lib L toAccount data value) := by
  unfold CreateTx GetNonce GetGasPrice EstimateGas
  repeat' first
    | exact emits_pure _ _
    | exact emits_self _
    | exact emits_fatalf _ _
    | exact emits_call _ _ _ trivial
    | apply emits_bind
    | split
    | intro _

theorem emits_run (lib : Lib) (L : Ledger) (c : MethodCall) :
    Emits (fun _ => True) (c.run lib L) := by
  cases c
  case SendTx tx => exact emits_discard _ _ (emits_SendTx lib L tx)
  case CreateTx t d v => exact emits_discard _ _ (emits_CreateTx lib L t d v)
  case GetTxReceipt h =>
    exact emits_discard _ _ (emits_GetTxReceipt _ lib L h trivial trivial trivial)
  case InvokeContractWithoutArgs c m v =>
    apply emits_discard
    unfold InvokeContractWithoutArgs
    apply emits_bind
    · exact emits_liftOutcome _ _
    · intro data
      apply emits_bind
      · exact emits_CreateTx lib L c data v
      · intro tx
        apply emits_bind
        · exact emits_SendTx lib L tx
        · intro _
          exact emits_pure _ _
  case Stop => exact emits_emit _ _ trivial
  all_goals
    apply emits_discard
    first
      | unfold Eth.Account
      | unfold Eth.GetCurrentBlockHeight
      | unfold Eth.GetBlockByHeight
      | unfold Eth.GetBlockByHash
      | unfold Eth.GetBlockHeaderByHeight
      | unfold Eth.GetBlockHeaderByHash
      | unfold Eth.GetNonce
      | unfold Eth.GetGasPrice
      | unfold Eth.EstimateGas
      | unfold Eth.GetChainId
      | unfold Eth.GetMyBalance Eth.GetBalance Eth.Account
      | unfold Eth.GetEthBalance Eth.GetBalance
      | unfold Eth.GetBalance
      | unfold Eth.GetTxByHash
      | unfold Eth.GetTxInBlock
      | unfold Eth.GetByteCode
      | unfold Eth.SignTx Eth.GetChainId
    repeat' first
      | exact emits_pure _ _
      | exact emits_self _
      | exact emits_fatalf _ _
      | exact emits_call _ _ _ trivial
      | exact emits_lookupTx _ _ _ trivial
      | exact emits_emit _ _ trivial
      | apply emits_bind
      | split
      | intro _


/-- C8: when the endpoint can be dialled and the key string parses,
`NewEthClient` returns a session holding the parsed key and the address derived
from that key's public key; `Account` on this session returns what
`PrivateKeyToAccount` computes from the key string alone, without any action
on the ledger; and no method call changes the session struct, so `Address` and
`PrivateKey` stay as constructed. -/
theorem NewEthClient_address_invariant (lib : Lib) (L : Ledger)
    (endpoint privateKey : GoString) (key : PrivateKey) (client : Client)
    (hkey : lib.HexToECDSA privateKey = .ok key) (hdial : L.Dial endpoint = .ok client) :
    ∃ ec, NewEthClient lib L endpoint privateKey = .ret ec
      ∧ ec.PrivateKey = key
      ∧ ec.Address = lib.PubkeyToAddress ec.PrivateKey.PublicKey
      ∧ PrivateKeyToAccount lib privateKey
        = .ret (lib.AddressHex (lib.PubkeyToAddress key.PublicKey))
      ∧ (∀ w : World, w.ec = ec →
          (Account lib w).1 = PrivateKeyToAccount lib privateKey ∧ (Account lib w).2 = w)
      ∧ (∀ (c : MethodCall) (w : World), w.ec = ec →
          (c.run lib L w).2.ec.Address = ec.Address
          ∧ (c.run lib L w).2.ec.PrivateKey = ec.PrivateKey) := by
  refine ⟨⟨key, lib.PubkeyToAddress key.PublicKey, client⟩, ?_, rfl, rfl, ?_, ?_, ?_⟩
  · simp [NewEthClient, hdial, hkey]
  · simp [PrivateKeyToAccount, hkey]
  · intro w hw
    simp [Account, PrivateKeyToAccount, hkey, bind_apply, Op.bind, self, pure_apply, hw]
  · intro c w hw
    have h := (emits_run lib L c w).1
    rw [h, hw]
    exact ⟨rfl, rfl⟩

/-- Instance of C8: a 64-character key string on the stand-in library. -/
theorem NewEthClient_address_invariant_witness :
    Demo.lib.HexToECDSA (List.replicate 64 48) = .ok ⟨⟨64, 3072⟩, 3072⟩
      ∧ ∃ ec, NewEthClient Demo.lib (Demo.ledger 0 1) Demo.contract (List.replicate 64 48)
          = .ret ec
        ∧ ec.PrivateKey = ⟨⟨64, 3072⟩, 3072⟩
        ∧ ec.Address = Demo.lib.PubkeyToAddress ec.PrivateKey.PublicKey :=
  ⟨rfl,
    match NewEthClient_address_invariant Demo.lib (Demo.ledger 0 1) Demo.contract
        (List.replicate 64 48) ⟨⟨64, 3072⟩, 3072⟩ ⟨Demo.contract⟩ rfl rfl with
    | ⟨ec, h1, h2, h3, _⟩ => ⟨ec, h1, h2, h3⟩⟩

/-! ### Unit conversion -/

theorem roundHalfEven_intCast (n : ℤ) : roundHalfEven (n : ℚ) = n := by
  simp [roundHalfEven]

theorem log_ten_pow : Int.log 2 |((10 : ℚ) ^ 18)| = 59 := by
  have h : |((10 : ℚ) ^ 18)| = ((10 ^ 18 : ℕ) : ℚ) := by
    rw [abs_of_nonneg (by positivity)]
    norm_num
  rw [h, Int.log_natCast]
  have : Nat.log 2 (10 ^ 18) = 59 :=
    Nat.log_eq_of_pow_le_of_lt_pow (by norm_num) (by norm_num)
  rw [this]
  rfl

theorem float64Const_ten_pow : float64Const (10 ^ 18) = 10 ^ 18 := by
  unfold float64Const roundToPrec
  rw [if_neg (by norm_num), log_ten_pow]
  have h : ((10 : ℚ) ^ 18) / (2 : ℚ) ^ ((59 : ℤ) - (((53 : ℕ) : ℤ) - 1))
      = ((7812500000000000 : ℤ) : ℚ) := by
    norm_num
  simp only [h, roundHalfEven_intCast]
  norm_num


theorem natAbs_lt_two_pow_BitLen (b : ℤ) : b.natAbs < 2 ^ BitLen b := by
  unfold BitLen
  split
  · next h => simp [h]
  · exact Nat.lt_log2_self

theorem roundToPrec_intCast (p : ℕ) (b : ℤ) (hp : BitLen b ≤ p) :
    roundToPrec p (b : ℚ) = b := by
  unfold roundToPrec
  by_cases hb : (b : ℚ) = 0
  · rw [if_pos hb, hb]
  · rw [if_neg hb]
    have hpos : (0 : ℚ) < |(b : ℚ)| := abs_pos.mpr hb
    have hlow : (2 : ℚ) ^ Int.log 2 |(b : ℚ)| ≤ |(b : ℚ)| := by
      have := Int.zpow_log_le_self (b := 2) (r := |(b : ℚ)|) (by norm_num) hpos
      simpa using this
    have hhigh : |(b : ℚ)| < (2 : ℚ) ^ (p : ℤ) := by
      have h1 := natAbs_lt_two_pow_BitLen b
      have h2 : 2 ^ BitLen b ≤ 2 ^ p := Nat.pow_le_pow_right (by norm_num) hp
      have h3 : b.natAbs < 2 ^ p := Nat.lt_of_lt_of_le h1 h2
      have h4 : |(b : ℚ)| = ((b.natAbs : ℕ) : ℚ) := by
        rw [← Int.cast_abs, Int.abs_eq_natAbs, Int.cast_natCast]
      rw [h4, zpow_natCast]
      exact_mod_cast h3
    have hlt : Int.log 2 |(b : ℚ)| < (p : ℤ) := by
      have := lt_of_le_of_lt hlow hhigh
      exact (zpow_lt_zpow_iff_right₀ (by norm_num : (1 : ℚ) < 2)).mp this
    obtain ⟨k, hk⟩ : ∃ k : ℕ, ((p : ℤ) - 1) - Int.log 2 |(b : ℚ)| = k :=
      ⟨(((p : ℤ) - 1) - Int.log 2 |(b : ℚ)|).toNat, by rw [Int.toNat_of_nonneg]; omega⟩
    have he : Int.log 2 |(b : ℚ)| - ((p : ℤ) - 1) = -(k : ℤ) := by omega
    rw [he]
    have hq : (b : ℚ) / (2 : ℚ) ^ (-(k : ℤ)) = ((b * 2 ^ k : ℤ) : ℚ) := by
      rw [zpow_neg, zpow_natCast, div_inv_eq_mul]
      push_cast
      ring
    show ((roundHalfEven ((b : ℚ) / (2 : ℚ) ^ (-(k : ℤ))) : ℤ) : ℚ) * (2 : ℚ) ^ (-(k : ℤ))
      = (b : ℚ)
    rw [hq, roundHalfEven_intCast, zpow_neg, zpow_natCast]
    push_cast
    field_simp


theorem BalanceToEther_eq (b : ℤ) :
    BalanceToEther b
      = ⟨max (BitLen b) 64, roundToPrec (max (BitLen b) 64) ((b : ℚ) / 10 ^ 18)⟩ := by
  have h1 : roundToPrec (max (BitLen b) 64) (b : ℚ) = b :=
    roundToPrec_intCast _ b (le_max_left _ _)
  have h2 : max (max (BitLen b) 64) 53 = max (BitLen b) 64 := by omega
  simp [BalanceToEther, BigFloat.SetInt, BigFloat.Quo, BigFloat.new, NewFloat, h1, h2,
    float64Const_ten_pow]

/-- C7: `BalanceToEther` is a function of the balance alone: the quotient of
the balance by 10^18, rounded to nearest-even at `max(BitLen, 64)` mantissa
bits. The divisor constant `1e18` is exact as a `float64`, the conversion of
the balance is exact, `BalanceToEther 0` is exactly 0 and
`BalanceToEther (10^18)` is exactly 1. -/
theorem BalanceToEther_exact :
    float64Const (10 ^ 18) = 10 ^ 18
      ∧ (∀ b : ℤ, BalanceToEther b
          = ⟨max (BitLen b) 64, roundToPrec (max (BitLen b) 64) ((b : ℚ) / 10 ^ 18)⟩)
      ∧ (BalanceToEther 0).val = 0
      ∧ (BalanceToEther (10 ^ 18)).val = 1 := by
  refine ⟨float64Const_ten_pow, BalanceToEther_eq, ?_, ?_⟩
  · rw [BalanceToEther_eq]
    simp [roundToPrec]
  · rw [BalanceToEther_eq]
    have h : (((10 ^ 18 : ℤ) : ℚ)) / 10 ^ 18 = ((1 : ℤ) : ℚ) := by norm_num
    have hb : BitLen 1 ≤ max (BitLen (10 ^ 18)) 64 := by
      have : BitLen 1 = 1 := by
        unfold BitLen
        rw [if_neg (by decide)]
        simp [Nat.log2]
      omega
    simp only [h]
    rw [roundToPrec_intCast _ 1 hb]
    norm_num

end Eth
